import Mathlib

/-!
# Verification of the Prizo raffle backend

A shallow embedding of the core of the Prizo raffle platform
(`src/backend/services/raffle_service.py`, `src/backend/app.py`,
`src/logic.py`, `src/bombo.py`, `src/backend/services/utils.py`)
together with theorems settling the spec claims.

Modelling conventions:
* Timestamps (ISO-8601 strings compared lexicographically in the code,
  `datetime` values compared chronologically) are modelled as `Nat`
  instants; both comparison disciplines agree on well-formed timestamps.
* Database rows are records in Lean lists; PostgREST filtered updates
  become `List.map` with the same boolean guard, filtered selects become
  `List.filter`, inserts become appends.
* Python `float` currency arithmetic is modelled over `Rat` (the spec's
  own idealisation: "never let intermediate floating error leak").
* The stdlib RNG (`random.Random`) is modelled by an abstract generator
  state threaded explicitly; a seeded generator is a function of the
  seed, an unseeded one is an explicit entropy parameter.
* Execution is sequential: one call runs to completion against the
  store; conditional-update races are out of scope, but everything a
  single call does (including its bounded internal retry) is modelled.
-/

namespace Prizo

/-! ## Data model (§3 of the spec; tables `raffles`, `tickets`,
`payments`, `payment_tickets`, `draws`, `winners`) -/

/-- A row of the `raffles` table.  Capacity may live in any of the three
columns probed by `RaffleService._extract_capacity`. -/
structure Raffle where
  id : Nat
  active : Bool
  ticketPriceCents : Nat
  totalTickets : Option Int
  maxTickets : Option Int
  capacity : Option Int
deriving Repr, DecidableEq

/-- A row of the `tickets` table. -/
structure Ticket where
  id : Nat
  raffleId : Nat
  number : Nat
  verified : Bool
  reservedUntil : Option Nat
  reservedBy : Option Nat
  email : Option Nat
  reference : Option Nat
deriving Repr, DecidableEq

inductive PStatus where
  | pending
  | approved
  | rejected
deriving Repr, DecidableEq

/-- A row of the `payments` table; `amountVes` and `rateUsed` are the
frozen-at-submission financial figures. -/
structure Payment where
  id : Nat
  raffleId : Nat
  email : Nat
  quantity : Nat
  reference : Nat
  status : PStatus
  amountVes : Rat
  rateUsed : Rat
deriving Repr, DecidableEq

/-- A row of the `payment_tickets` join table. -/
structure PLink where
  paymentId : Nat
  ticketId : Nat
deriving Repr, DecidableEq

/-- The persistent store visible to payment reconciliation. -/
structure DB where
  tickets : List Ticket
  payments : List Payment
  links : List PLink
deriving Repr, DecidableEq

/-- `RaffleService._extract_capacity`: first positive value among
`total_tickets`, `max_tickets`, `capacity`. -/
def extractCapacity (r : Raffle) : Option Nat :=
  match r.totalTickets with
  | some v => if 0 < v then some v.toNat else
      match r.maxTickets with
      | some w => if 0 < w then some w.toNat else
          match r.capacity with
          | some u => if 0 < u then some u.toNat else none
          | none => none
      | none =>
          match r.capacity with
          | some u => if 0 < u then some u.toNat else none
          | none => none
  | none =>
      match r.maxTickets with
      | some w => if 0 < w then some w.toNat else
          match r.capacity with
          | some u => if 0 < u then some u.toNat else none
          | none => none
      | none =>
          match r.capacity with
          | some u => if 0 < u then some u.toNat else none
          | none => none

/-! ## Ticket predicates -/

/-- `reserved_until > now` (the PostgREST `gt` filter used by
`_count_reserved_active` and by every post-claim select). -/
def untilAfter (now : Nat) (t : Ticket) : Bool :=
  match t.reservedUntil with
  | some u => now < u
  | none => false

/-- `reserved_until < now` (the PostgREST `lt` filter used by the expiry
sweeps). -/
def untilBefore (now : Nat) (t : Ticket) : Bool :=
  match t.reservedUntil with
  | some u => u < now
  | none => false

/-- The reservation-freedom condition used by every claim-update:
`reserved_until.is.null,reserved_until.lt.<now>` (`or_` filter). -/
def freeCond (now : Nat) (t : Ticket) : Bool :=
  match t.reservedUntil with
  | some u => u < now
  | none => true

/-- `RaffleService._count_paid`: tickets of the raffle with
`verified = true`. -/
def countPaid (rid : Nat) (ts : List Ticket) : Nat :=
  ts.countP fun t => t.raffleId == rid && t.verified

/-- `RaffleService._count_reserved_active`: unverified tickets of the
raffle whose `reserved_until` lies strictly in the future. -/
def countReservedActive (rid now : Nat) (ts : List Ticket) : Nat :=
  ts.countP fun t => t.raffleId == rid && !t.verified && untilAfter now t

/-- The abstract free/held/sold classification of §3 of the spec. -/
inductive TState where
  | free
  | held
  | sold
deriving Repr, DecidableEq

def ticketState (now : Nat) (t : Ticket) : TState :=
  if t.verified then .sold
  else if untilAfter now t then .held
  else .free

/-! ## Expiry sweeping -/

/-- The row transformation of `_clear_expired_reservations`: clear
`reserved_until` / `email` / `reserved_by` on unverified rows of the
raffle whose lease lies strictly in the past. -/
def clearT (rid now : Nat) (t : Ticket) : Ticket :=
  if t.raffleId == rid && t.verified == false && untilBefore now t then
    { t with reservedUntil := none, email := none, reservedBy := none }
  else t

/-- `RaffleService._clear_expired_reservations` (a filtered update over
the `tickets` table). -/
def clearExpiredReservations (rid now : Nat) (ts : List Ticket) : List Ticket :=
  ts.map (clearT rid now)

/-- The global sweep performed by the background cleanup loop and the
`/admin/cleanup_reservations` endpoint after the per-raffle pass:
`update ... .lt('reserved_until', now) .eq('verified', False)`. -/
def sweepGlobal (now : Nat) (ts : List Ticket) : List Ticket :=
  ts.map fun t =>
    if untilBefore now t && t.verified == false then
      { t with reservedUntil := none, email := none, reservedBy := none }
    else t

/-- The `/tickets/release` endpoint: clear reservation fields on the
given ids where `verified = false`. -/
def releaseTickets (ids : List Nat) (ts : List Ticket) : List Ticket :=
  ts.map fun t =>
    if ids.contains t.id && t.verified == false then
      { t with reservedUntil := none, email := none, reservedBy := none }
    else t

/-! ## Reservation engine (`RaffleService.reserve_tickets`)

The anonymous-hold reservation call.  The fresh `uuid4` hold token is the
explicit parameter `hold`; primary keys of freshly inserted rows are
drawn from the counter `nextId`; `rng.shuffle` of the quantity mode is
the explicit parameter `shuffle` (theorems assume it permutes its
input); `email` values are abstract identifiers (`Nat`), their string
structure never matters to the claims.  A single instant `now` stands
for the call's clock reads. -/

/-- Errors raised by the service (`ValueError`/`RuntimeError` messages). -/
inductive RErr where
  | noActiveRaffle          -- "No hay rifa activa"
  | capacityUnset           -- "Capacidad de rifa no configurada"
  | noCupos                 -- "No hay cupos suficientes"
  | idsUnavailable          -- "Algunos tickets ya no están disponibles..."
  | emptyNumbers            -- "ticket_numbers vacío"
  | numberUnavailable (n : Nat)  -- "El ticket #n ya no está disponible"
  | qtyInvalid              -- "quantity must be >= 1"
  | retryFailed             -- "No fue posible reservar los tickets solicitados..."
deriving Repr, DecidableEq

/-- Reservation lease window (10 minutes in the code; one abstract time
unit per minute). -/
def leaseLen : Nat := 10

/-- The claim-update row transformation: stamp `reserved_until` and
`reserved_by` when the row matches the guard. -/
def stampT (expires hold : Nat) (guard : Ticket → Bool) (t : Ticket) : Ticket :=
  if guard t then { t with reservedUntil := some expires, reservedBy := some hold }
  else t

/-- Guard of the by-ids claim update: `id in ids`, same raffle, not
verified, free (`reserved_until` null or past). -/
def idsClaimGuard (rid now : Nat) (ids : List Nat) (t : Ticket) : Bool :=
  ids.contains t.id && t.raffleId == rid && t.verified == false && freeCond now t

/-- The post-claim select shared by all modes: rows of the raffle,
unverified, stamped with this hold, lease in the future. -/
def claimedBy (rid now hold : Nat) (member : Ticket → Bool) (ts : List Ticket) :
    List Ticket :=
  ts.filter fun t =>
    member t && t.raffleId == rid && t.verified == false &&
      t.reservedBy == some hold && untilAfter now t

/-- Python's `sorted` on a list of naturals. -/
def sortedNats (l : List Nat) : List Nat :=
  match l with
  | [] => []
  | n :: rest =>
    let s := sortedNats rest
    let rec ins (n : Nat) : List Nat → List Nat
      | [] => [n]
      | m :: ms => if n ≤ m then n :: m :: ms else m :: ins n ms
    ins n s

/-- Result of a reservation call: the new `tickets` table, the advanced
id counter, and either the granted rows or the raised error. -/
structure ReserveOut where
  tickets : List Ticket
  nextId : Nat
  result : Except RErr (List Ticket)
deriving Repr

/-- Mode 2 creation loop: for each still-unclaimed number insert a fresh
stamped row; if a row with that number already exists (the insert
violates the unique key) fall back to claiming it if free, else fail for
that number.  Returns the created rows' ids. -/
def createNumbers (rid now expires hold : Nat) :
    List Nat → List Ticket → Nat → List Nat → (List Ticket × Nat) × Except RErr (List Nat)
  | [], ts, nextId, acc => ((ts, nextId), .ok acc.reverse)
  | n :: rest, ts, nextId, acc =>
    if ts.any (fun t => t.raffleId == rid && t.number == n) then
      -- insert lost to an existing row: last-chance claim
      let ts' := ts.map (stampT expires hold fun t =>
        t.raffleId == rid && t.number == n && t.verified == false && freeCond now t)
      let retry := ts'.filter fun t =>
        t.raffleId == rid && t.number == n && t.verified == false &&
          t.reservedBy == some hold && untilAfter now t
      match retry with
      | r :: _ => createNumbers rid now expires hold rest ts' nextId (r.id :: acc)
      | [] => ((ts', nextId), .error (.numberUnavailable n))
    else
      let newT : Ticket :=
        ⟨nextId, rid, n, false, some expires, some hold, none, none⟩
      createNumbers rid now expires hold rest (ts ++ [newT]) (nextId + 1) (newT.id :: acc)

/-- Quantity-mode existence upsert: ensure a row exists for every target
number (`verified = false` placeholder); an existing row is updated in
place (`on_conflict` re-asserts `verified = false`), a missing one is
inserted. -/
def upsertNumbers (rid : Nat) : List Nat → List Ticket → Nat → List Ticket × Nat
  | [], ts, nextId => (ts, nextId)
  | n :: rest, ts, nextId =>
    if ts.any (fun t => t.raffleId == rid && t.number == n) then
      upsertNumbers rid rest
        (ts.map fun t =>
          if t.raffleId == rid && t.number == n then { t with verified := false } else t)
        nextId
    else
      upsertNumbers rid rest (ts ++ [⟨nextId, rid, n, false, none, none, none, none⟩])
        (nextId + 1)

/-- The free-number set of the quantity mode:
`{1..capacity} - taken`, `taken` being every row of the raffle that is
verified or actively leased. -/
def freeNumbers (rid cap now : Nat) (ts : List Ticket) : List Nat :=
  (List.range' 1 cap).filter fun n =>
    !(ts.any fun t => t.raffleId == rid && t.number == n && (t.verified || untilAfter now t))

/-- One pass of the quantity-mode retry loop: compute the free set,
fail if short, upsert placeholders for a random sample, claim them under
the hold, and check the claimed count. -/
def qtyAttempt (rid cap now expires hold qty : Nat) (shuffle : List Nat → List Nat)
    (ts : List Ticket) (nextId : Nat) : (List Ticket × Nat) × Except RErr (List Nat) :=
  let free := freeNumbers rid cap now ts
  if free.length < qty then ((ts, nextId), .error .noCupos)
  else
    let target := sortedNats ((shuffle free).take qty)
    let up := upsertNumbers rid target ts nextId
    let ts2 := up.1.map (stampT expires hold fun t =>
      t.raffleId == rid && t.verified == false && target.contains t.number &&
        freeCond now t)
    let got := claimedBy rid now hold (fun t => target.contains t.number) ts2
    if qty ≤ got.length then ((ts2, up.2), .ok (got.map (·.id)))
    else ((ts2, up.2), .error .retryFailed)

/-- `RaffleService.reserve_tickets`.  Dispatches on the three allocation
modes exactly as the source: explicit `ticket_ids`, else explicit
`ticket_numbers`, else quantity. -/
def reserve_tickets (raffle : Raffle) (now hold nextId : Nat)
    (shuffle : List Nat → List Nat) (ticketIds : List Nat)
    (ticketNumbers : List Nat) (qty : Nat) (ts : List Ticket) : ReserveOut :=
  if raffle.active == false then ⟨ts, nextId, .error .noActiveRaffle⟩
  else match extractCapacity raffle with
  | none => ⟨ts, nextId, .error .capacityUnset⟩
  | some cap =>
    let rid := raffle.id
    let ts1 := clearExpiredReservations rid now ts
    let sold := countPaid rid ts1
    let act := countReservedActive rid now ts1
    let expires := now + leaseLen
    if ticketIds ≠ [] then
      -- ---------- 1) by ids ----------
      if cap < sold + act + ticketIds.length then ⟨ts1, nextId, .error .noCupos⟩
      else
        let ts2 := ts1.map (stampT expires hold (idsClaimGuard rid now ticketIds))
        let rows := claimedBy rid now hold (fun t => ticketIds.contains t.id) ts2
        if rows.length ≠ ticketIds.length then ⟨ts2, nextId, .error .idsUnavailable⟩
        else ⟨ts2, nextId, .ok rows⟩
    else if ticketNumbers ≠ [] then
      -- ---------- 2) by numbers ----------
      let uniqueNumbers := sortedNats ((ticketNumbers.filter (0 < ·)).dedup)
      if uniqueNumbers = [] then ⟨ts1, nextId, .error .emptyNumbers⟩
      else if cap < sold + act + uniqueNumbers.length then ⟨ts1, nextId, .error .noCupos⟩
      else
        let ts2 := ts1.map (stampT expires hold fun t =>
          t.raffleId == rid && uniqueNumbers.contains t.number &&
            t.verified == false && freeCond now t)
        let updatedRows := claimedBy rid now hold
          (fun t => uniqueNumbers.contains t.number) ts2
        let updatedNums := updatedRows.map (·.number)
        let toCreate := uniqueNumbers.filter (fun n => !updatedNums.contains n)
        match createNumbers rid now expires hold toCreate ts2 nextId [] with
        | ((ts3, nextId3), .error e) => ⟨ts3, nextId3, .error e⟩
        | ((ts3, nextId3), .ok createdIds) =>
          let allIds := createdIds ++ updatedRows.map (·.id)
          ⟨ts3, nextId3, .ok (ts3.filter fun t => allIds.contains t.id)⟩
    else
      -- ---------- 3) by quantity ----------
      if qty < 1 then ⟨ts1, nextId, .error .qtyInvalid⟩
      else if cap < sold + act + qty then ⟨ts1, nextId, .error .noCupos⟩
      else
        match qtyAttempt rid cap now expires hold qty shuffle ts1 nextId with
        | ((ts2, nextId2), .ok ids) =>
          ⟨ts2, nextId2, .ok (ts2.filter fun t => ids.contains t.id)⟩
        | ((ts2, nextId2), .error _) =>
          match qtyAttempt rid cap now expires hold qty shuffle ts2 nextId2 with
          | ((ts3, nextId3), .ok ids) =>
            ⟨ts3, nextId3, .ok (ts3.filter fun t => ids.contains t.id)⟩
          | ((ts3, nextId3), .error e2) =>
            ⟨ts3, nextId3, .error (if e2 = .noCupos then .noCupos else .retryFailed)⟩

/-! ## Currency rounding (`src/backend/services/utils.py`) -/

/-- `round2`: `Decimal(str(x)).quantize(Decimal("0.01"), ROUND_HALF_UP)`
— round half away from zero to two decimal places, over exact rationals. -/
def round2 (x : Rat) : Rat :=
  if 0 ≤ x then (⌊x * 100 + 1/2⌋ : Int) / 100
  else -((⌊-x * 100 + 1/2⌋ : Int) / 100 : Rat)

/-- Python's banker's rounding of a rational to the nearest integer
(ties to even), used by the builtin `round`. -/
def roundHalfEvenZ (y : Rat) : Int :=
  if y - ⌊y⌋ = 1/2 then (if ⌊y⌋ % 2 = 0 then ⌊y⌋ else ⌊y⌋ + 1)
  else ⌊y + 1/2⌋

/-- `cents_to_usd`: `round(cents / 100.0, 2)` (builtin two-decimal
banker's rounding). -/
def cents_to_usd (cents : Nat) : Rat :=
  (roundHalfEvenZ ((cents : Rat) / 100 * 100) : Int) / 100

/-! ## Quotation (`RaffleService.quote_amount`) -/

structure Quote where
  raffleId : Nat
  unitPriceUsd : Rat
  totalUsd : Rat
  unitPriceVes : Rat
  totalVes : Rat
deriving Repr, DecidableEq

/-- `RaffleService.quote_amount`.  The resolved raffle is `raffle?`
(`get_raffle_by_id(...) or get_current_raffle()`); `rate` is the value
returned by `get_rate(allow_stale=True)`. -/
def quote_amount (quantity : Nat) (raffle? : Option Raffle) (rate : Rat) :
    Except String Quote :=
  if quantity < 1 then .error "quantity debe ser >= 1"
  else match raffle? with
  | none => .error "No hay rifa activa ni se encontró la rifa solicitada."
  | some raffle =>
    let unitPriceUsd := cents_to_usd raffle.ticketPriceCents
    let totalUsd := round2 (unitPriceUsd * quantity)
    let unitPriceVes := round2 (unitPriceUsd * rate)
    let totalVes := round2 (totalUsd * rate)
    .ok ⟨raffle.id, unitPriceUsd, totalUsd, unitPriceVes, totalVes⟩

/-! ## Payment reconciliation -/

/-- `RaffleService.mark_paid`
(`src/backend/services/raffle_service.py:797`): set `verified = true`
with the payment reference and clear the reservation fields on the
given ticket ids. -/
def mark_paid (ticketIds : List Nat) (paymentRef : Nat) (ts : List Ticket) :
    List Ticket :=
  if ticketIds = [] then ts
  else ts.map fun t =>
    if ticketIds.contains t.id then
      { t with verified := true, reference := some paymentRef,
               reservedUntil := none, reservedBy := none }
    else t

/-- Validation errors of `create_payment_for_reserved`. -/
inductive PayErr where
  | noTickets            -- "Se requieren tickets reservados..."
  | noHold               -- "hold_id requerido..."
  | noActiveRaffle       -- "No hay rifa activa para registrar pagos."
  | someMissing          -- "Algunos tickets no existen."
  | wrongRaffle          -- "Ticket no pertenece a esta rifa."
  | alreadyVerified      -- "Ticket ya verificado (pagado)."
  | reservationExpired   -- "La reserva del ticket ha expirado."
  | wrongHold            -- "Algún ticket no pertenece a este hold_id."
  | emailMismatch        -- "El email del pago no coincide con la reserva."
deriving Repr, DecidableEq

/-- The per-row validation of `create_payment_for_reserved`, checks in
source order; `none` means the row passes. -/
def validateRow (rid now hold : Nat) (email : Nat) (t : Ticket) : Option PayErr :=
  if t.raffleId ≠ rid then some .wrongRaffle
  else if t.verified then some .alreadyVerified
  else if !untilAfter now t then some .reservationExpired
  else if t.reservedBy ≠ some hold then some .wrongHold
  else match t.email with
    | some e => if e ≠ email then some .emailMismatch else none
    | none => none

/-- First validation failure over the fetched rows. -/
def validateRows (rid now hold : Nat) (email : Nat) : List Ticket → Option PayErr
  | [] => none
  | t :: rest =>
    match validateRow rid now hold email t with
    | some e => some e
    | none => validateRows rid now hold email rest

/-- `RaffleService.create_payment_for_reserved`: validate every
referenced ticket, then insert the pending payment with the frozen
`amount_ves` / `rate_used`, link the tickets, and re-extend their lease
while assigning the buyer's email and releasing the hold token. -/
def create_payment_for_reserved (email : Nat) (ticketIds : List Nat)
    (reference : Nat) (raffle? : Option Raffle) (now payId : Nat)
    (holdGiven : Option Nat) (rate : Rat) (db : DB) : DB × Except PayErr Payment :=
  if ticketIds = [] then (db, .error .noTickets)
  else match holdGiven with
  | none => (db, .error .noHold)
  | some hold =>
    match raffle? with
    | none => (db, .error .noActiveRaffle)
    | some raffle =>
      let rid := raffle.id
      let rows := db.tickets.filter fun t => ticketIds.contains t.id
      if rows.length ≠ ticketIds.length then (db, .error .someMissing)
      else match validateRows rid now hold email rows with
      | some e => (db, .error e)
      | none =>
        let qty := ticketIds.length
        let unitPriceUsd := cents_to_usd raffle.ticketPriceCents
        let totalUsd := round2 (unitPriceUsd * qty)
        let amountVes := round2 (totalUsd * rate)
        let pay : Payment := ⟨payId, rid, email, qty, reference, .pending, amountVes, rate⟩
        let newLinks := ticketIds.map fun tid => PLink.mk payId tid
        let ts' := db.tickets.map fun t =>
          if ticketIds.contains t.id then
            { t with reservedUntil := some (now + leaseLen), email := some email,
                     reservedBy := none }
          else t
        ({ tickets := ts', payments := db.payments ++ [pay],
           links := db.links ++ newLinks }, .ok pay)

/-- `RaffleService.admin_verify_payment` (`src/logic.py:511`, with the
backend's `mark_paid` as the approval cascade): look up the linked
tickets, on approval mark them paid with the payment's reference, and
set the payment status terminally. -/
def admin_verify_payment (paymentId : Nat) (approve : Bool) (db : DB) :
    DB × Except PayErr (PStatus × List Nat) :=
  let ticketIds := (db.links.filter fun l => l.paymentId == paymentId).map (·.ticketId)
  if ticketIds = [] then (db, .error .noTickets)
  else
    let newStatus : PStatus := if approve then .approved else .rejected
    let ref := match db.payments.find? (fun p => p.id == paymentId) with
      | some p => p.reference
      | none => 0  -- f"PAY-{payment_id}" placeholder reference
    let ts' := if approve then mark_paid ticketIds ref db.tickets else db.tickets
    let ps' := db.payments.map fun p =>
      if p.id == paymentId then { p with status := newStatus } else p
    ({ tickets := ts', payments := ps', links := db.links }, .ok (newStatus, ticketIds))

/-! ## RNG model

`random.Random` is modelled as an abstract generator state: `PyRng.next`
yields a number and the successor state.  `random.Random(seed)` is the
deterministic state `PyRng.ofSeed seed`; `random.Random()` (unseeded) is
an arbitrary entropy parameter supplied by the environment.  The claims
depend only on whether the seed determines the stream, never on the
concrete distribution. -/

structure PyRng where
  state : Nat
deriving Repr, DecidableEq

def PyRng.next (g : PyRng) : Nat × PyRng :=
  (g.state, ⟨g.state * 1103515245 + 12345⟩)

def PyRng.ofSeed (seed : Nat) : PyRng := ⟨seed⟩

/-- `rng.choice(pool)`: pick one element (pool must be nonempty in the
code; an empty pool yields `none`). -/
def PyRng.choice (g : PyRng) (pool : List α) : Option α × PyRng :=
  let (k, g') := g.next
  (pool.get? (k % pool.length), g')

/-- `rng.sample(pool, n)`: `n` distinct elements, drawn without
replacement. -/
def PyRng.sample (g : PyRng) (pool : List α) : Nat → List α × PyRng
  | 0 => ([], g)
  | n + 1 =>
    if pool.isEmpty then ([], g)
    else
      let (k, g') := g.next
      let i := k % pool.length
      match pool.get? i with
      | none => ([], g')
      | some x =>
        let (rest, g'') := PyRng.sample g' (pool.take i ++ pool.drop (i + 1)) n
        (x :: rest, g'')

/-! ## Draw engine (`RaffleService.start_draw` / `pick_winners`) -/

/-- A row of the `draws` table: `start_draw` stores the caller's
optional seed on it. -/
structure Draw where
  id : Nat
  seed : Option Nat
deriving Repr, DecidableEq

structure WinnerOut where
  drawId : Nat
  position : Nat
  ticketId : Nat
  ticketNumber : Nat
  emailId : Option Nat
deriving Repr, DecidableEq

/-- Insertion sort of tickets by ticket number
(`.order("ticket_number")`). -/
def sortByNumber (ts : List Ticket) : List Ticket :=
  match ts with
  | [] => []
  | t :: rest =>
    let s := sortByNumber rest
    let rec ins (t : Ticket) : List Ticket → List Ticket
      | [] => [t]
      | u :: us => if t.number ≤ u.number then t :: u :: us else u :: ins t us
    ins t s

/-- `RaffleService.pick_winners`: pool = verified tickets of the raffle
ordered by number; `rng = random.Random()` — a FRESH unseeded generator
(`fresh`); the draw row's stored `seed` is never consulted.  `unique`
samples without replacement (the whole pool if `n` exceeds it),
otherwise `n` choices with replacement.  Winners are appended with
1-based positions. -/
def service_pick_winners (draw : Draw) (raffle : Raffle) (fresh : PyRng)
    (ts : List Ticket) (n : Nat) (unique : Bool) : List WinnerOut :=
  let pool := sortByNumber (ts.filter fun t =>
    t.raffleId == raffle.id && t.verified)
  if pool.isEmpty then []
  else
    let rng := fresh
    let chosen :=
      if unique then
        if n ≤ pool.length then (rng.sample pool n).1 else pool
      else
        (List.range n).foldl
          (fun (st : List Ticket × PyRng) _ =>
            match st.2.choice pool with
            | (some x, g') => (st.1 ++ [x], g')
            | (none, g') => (st.1, g'))
          ([], rng) |>.1
    (chosen.enum).map fun (i, c) =>
      ⟨draw.id, i + 1, c.id, c.number, c.email⟩

/-! ## The standalone drawing utility (`src/bombo.py::pick_winners`) -/

structure Participant where
  nombre : Option String
  name : Option String
  email : Option String
deriving Repr, DecidableEq

structure BomboWinner where
  position : Nat
  nombre : Option String
  email : Option String
  emailMasked : String
  drawTicket : String
deriving Repr, DecidableEq

/-- `_mask_email` (shared by `bombo.py`, `utils.py`, `logic.py`):
`ab***@do***.com`-style masking. -/
def mask_email (email : String) : String :=
  if email = "" || !(email.contains '@') then email
  else
    match email.splitOn "@" with
    | user :: domRest =>
      let dom := String.intercalate "@" domRest
      let mask := fun (s : String) =>
        if s.length ≤ 2 then s.take 1 ++ "*" else s.take 2 ++ "***"
      let domParts := dom.splitOn "."
      let domParts' := match domParts with
        | [] => []
        | d :: ds => mask d :: ds
      mask user ++ "@" ++ String.intercalate "." domParts'
    | [] => email

/-- `bombo.pick_winners`: seedable drawing over CSV participants.
`rng = random.Random(seed)`; when `seed` is `None` the generator is
seeded from environment entropy (`entropy`).  Each winner additionally
carries a fresh `uuid4` draw ticket, modelled by the environment-supplied
`uuidSrc`. -/
def bombo_pick_winners (participants : List Participant) (n : Nat) (unique : Bool)
    (seed : Option Nat) (entropy : PyRng) (uuidSrc : Nat → String) :
    List BomboWinner :=
  if participants = [] then []
  else if n < 1 then []
  else
    let rng := match seed with
      | some s => PyRng.ofSeed s
      | none => entropy
    let pool := participants
    let chosen :=
      if unique then
        if pool.length ≤ n then pool else (rng.sample pool n).1
      else
        (List.range n).foldl
          (fun (st : List Participant × PyRng) _ =>
            match st.2.choice pool with
            | (some x, g') => (st.1 ++ [x], g')
            | (none, g') => (st.1, g'))
          ([], rng) |>.1
    (chosen.enum).map fun (i, p) =>
      { position := i + 1
        nombre := p.nombre.orElse (fun _ => p.name)
        email := p.email
        emailMasked := mask_email (p.email.getD "")
        drawTicket := uuidSrc i }

/-! ## Rate cache (`RaffleService.updateBCVRate` and friends)

External HTTP calls are modelled by an environment `world` mapping each
URL to an outcome (network/HTTP/JSON failure, or a parsed JSON body).
Python's `float(...)` string parsing is the unconstrained parameter
`parseFloat`; on non-numeric payload shapes (`dict`, `list`, `bool`,
`None`) `float(str(x))` raises, which the model encodes directly. -/

inductive Json where
  | num (q : Rat)
  | str (s : String)
  | bool (b : Bool)
  | null
  | arr (xs : List Json)
  | obj (fields : List (String × Json))
deriving Repr

/-- Object field lookup (`k in node` / `node[k]`). -/
def Json.get? (j : Json) (k : String) : Option Json :=
  match j with
  | .obj fs => fs.lookup k
  | _ => none

/-- Walk a key path through nested objects. -/
def Json.getPath (j : Json) : List String → Option Json
  | [] => some j
  | k :: rest =>
    match j.get? k with
    | some v => v.getPath rest
    | none => none

/-- `RaffleService._num_or_none`:
`float(str(x).replace(",", "."))`, positive or `None`. -/
def num_or_none (parseFloat : String → Option Rat) (j : Json) : Option Rat :=
  match j with
  | .num q => if 0 < q then some q else none
  | .str s =>
    match parseFloat (s.replace "," ".") with
    | some n => if 0 < n then some n else none
    | none => none
  | _ => none  -- float(str(dict/list/bool/None)) raises → None

/-- The fixed key-path probe list of `_extract_rate_from_payload`. -/
def tryKeys : List (List String) :=
  [["monitors", "bcv", "price"], ["monitors", "bcv", "value"],
   ["bcv", "price"], ["bcv", "valor"], ["bcv"],
   ["oficial", "price"], ["oficial", "valor"],
   ["usd", "bcv"], ["data", "usd", "bcv"],
   ["rates", "VES"], ["rates", "VEF"], ["VES"], ["VEF"],
   ["promedio"], ["price"], ["valor"]]

/-- `RaffleService._extract_rate_from_payload`: first key path whose
value parses to a positive number. -/
def extract_rate_from_payload (parseFloat : String → Option Rat) (j : Json) :
    Option Rat :=
  match j with
  | .obj _ =>
    (tryKeys.foldl
      (fun acc path =>
        match acc with
        | some r => some r
        | none =>
          match j.getPath path with
          | some node => num_or_none parseFloat node
          | none => none)
      none)
  | _ => none

/-- Outcome of one `requests.get(url).json()` round-trip. -/
inductive FetchOutcome where
  | fail
  | ok (j : Json)

/-- Environment-derived settings relevant to the rate cache. -/
structure RateCfg where
  bcvApiUrl : Option String
  defaultUsdvesRate : Rat

/-- Today's cache entry as written by `_store_rate_cache`. -/
structure RateEntry where
  rate : Rat
  source : String
deriving Repr

/-- The hardcoded primary BCV source list of `updateBCVRate`. -/
def primarySources : List (String × String) :=
  [("https://pydolarvenezuela.github.io/api/v1/dollar", "PyDolarVenezuela (GH Pages)"),
   ("https://pydolarvenezuela-api.vercel.app/api/v1/dollar", "PyDolarVenezuela (Vercel 1)"),
   ("https://pydolarvenezuela.vercel.app/api/v1/dollar", "PyDolarVenezuela (Vercel 2)"),
   ("https://pydolarvenezuela.obh.software/api/v1/dollar", "PyDolarVenezuela (OBH)"),
   ("https://dolartoday-api.vercel.app/api/pydolar", "dolartoday-api mirror/pydolar"),
   ("https://venezuela-exchange.vercel.app/api", "venezuela-exchange")]

/-- The primary-source loop: first source with an extractable positive
rate wins. -/
def tryPrimaries (world : String → FetchOutcome)
    (parseFloat : String → Option Rat) : List (String × String) → Option RateEntry
  | [] => none
  | (url, label) :: rest =>
    match world url with
    | .ok j =>
      match extract_rate_from_payload parseFloat j with
      | some r => some ⟨r, "BCV:" ++ label⟩
      | none => tryPrimaries world parseFloat rest
    | .fail => tryPrimaries world parseFloat rest

/-- The optional custom endpoint try of `updateBCVRate` (its first
`try/except` block). -/
def customEntry (cfg : RateCfg) (world : String → FetchOutcome)
    (parseFloat : String → Option Rat) : Option RateEntry :=
  match cfg.bcvApiUrl with
  | some url =>
    match world url with
    | .ok j =>
      match extract_rate_from_payload parseFloat j with
      | some r => some ⟨r, "custom:" ++ url⟩
      | none => none
    | .fail => none
  | none => none

/-- The `open.er-api.com` try of `updateBCVRate`. -/
def erApiEntry (world : String → FetchOutcome)
    (parseFloat : String → Option Rat) : Option RateEntry :=
  match world "https://open.er-api.com/v6/latest/USD" with
  | .ok j =>
    match extract_rate_from_payload parseFloat j with
    | some r => some ⟨r, "MID:open.er-api.com (NO BCV)"⟩
    | none => none
  | .fail => none

/-- The DolarToday S3 try of `updateBCVRate`, with its `USD.promedio`
special case. -/
def dolarTodayEntry (world : String → FetchOutcome)
    (parseFloat : String → Option Rat) : Option RateEntry :=
  match world "https://s3.amazonaws.com/dolartoday/data.json" with
  | .ok j =>
    match extract_rate_from_payload parseFloat j with
    | some r => some ⟨r, "PAR:DolarToday S3 (NO BCV)"⟩
    | none =>
      match j.get? "USD" with
      | some (Json.obj usdFields) =>
        match (Json.obj usdFields).get? "promedio" with
        | some v =>
          match num_or_none parseFloat v with
          | some r => some ⟨r, "PAR:DolarToday S3 (NO BCV)"⟩
          | none => none
        | none => none
      | _ => none
  | .fail => none

/-- `RaffleService.updateBCVRate`: custom endpoint first, then the
primary sources, then `open.er-api.com`, then the DolarToday S3 dump,
finally the configured static default.  Returns the chosen rate
together with the cache entry it persists. -/
def updateBCVRate (cfg : RateCfg) (world : String → FetchOutcome)
    (parseFloat : String → Option Rat) : Rat × RateEntry :=
  match customEntry cfg world parseFloat with
  | some e => (e.rate, e)
  | none =>
    match tryPrimaries world parseFloat primarySources with
    | some e => (e.rate, e)
    | none =>
      match erApiEntry world parseFloat with
      | some e => (e.rate, e)
      | none =>
        match dolarTodayEntry world parseFloat with
        | some e => (e.rate, e)
        | none => (cfg.defaultUsdvesRate,
                   ⟨cfg.defaultUsdvesRate, "fallback:default_usdves_rate"⟩)

/-- `RaffleService.fetch_external_rate`
(`src/backend/services/raffle_service.py:414`): probes only the custom
endpoint and falls off the end — `None` — whenever that endpoint is
unconfigured, unreachable, or yields no extractable rate. -/
def fetch_external_rate (cfg : RateCfg) (world : String → FetchOutcome)
    (parseFloat : String → Option Rat) : Option Rat :=
  match cfg.bcvApiUrl with
  | some url =>
    match world url with
    | .ok j =>
      match extract_rate_from_payload parseFloat j with
      | some r => some r
      | none => none
    | .fail => none
  | none => none

/-! ## Request layer (`src/backend/app.py`) -/

structure HErr where
  status : Nat
  detail : String
deriving Repr, DecidableEq

/-- The `/tickets/reserve` endpoint: the inline quantity guard
(`1 ≤ qty ≤ 50`, HTTP 422) runs before the service is invoked; service
`ValueError`s surface as 422. -/
def reserve_endpoint (quantity : Int) (raffle : Raffle)
    (now hold nextId : Nat) (shuffle : List Nat → List Nat)
    (ts : List Ticket) : (List Ticket × Nat) × Except HErr (List Ticket) :=
  if quantity < 1 || 50 < quantity then
    ((ts, nextId), .error ⟨422, "quantity debe estar entre 1 y 50"⟩)
  else
    let out := reserve_tickets raffle now hold nextId shuffle [] [] quantity.toNat ts
    match out.result with
    | .ok rows => ((out.tickets, out.nextId), .ok rows)
    | .error _ => ((out.tickets, out.nextId), .error ⟨422, "reserva fallida"⟩)

/-! ## Generic list lemmas -/

/-- A duplicate-free list is no longer than any list containing its
elements. -/
theorem nodup_length_le {l₁ l₂ : List Nat} (h₁ : l₁.Nodup) (h₂ : l₁ ⊆ l₂) :
    l₁.length ≤ l₂.length := by
  calc l₁.length = l₁.toFinset.card := (List.toFinset_card_of_nodup h₁).symm
    _ ≤ l₂.toFinset.card := by
        apply Finset.card_le_card
        intro a ha
        rw [List.mem_toFinset] at ha ⊢
        exact h₂ ha
    _ ≤ l₂.length := l₂.toFinset_card_le

/-- A duplicate-free list all of whose elements equal `n` has at most one
element. -/
theorem nodup_const_length_le_one {l : List Nat} {n : Nat} (h₁ : l.Nodup)
    (h₂ : ∀ x ∈ l, x = n) : l.length ≤ 1 := by
  match l, h₁ with
  | [], _ => simp
  | [x], _ => simp
  | x :: y :: rest, h₁ =>
    exfalso
    have hxy : x ≠ y := (List.pairwise_cons.mp h₁).1 y (by simp)
    exact hxy ((h₂ x (by simp)).trans (h₂ y (by simp)).symm)

/-- Filtering with a stronger predicate yields a sublist of filtering
with a weaker one. -/
theorem filter_sublist_filter {l : List α} {p q : α → Bool}
    (h : ∀ a, p a = true → q a = true) :
    List.Sublist (l.filter p) (l.filter q) := by
  induction l with
  | nil => simp
  | cons a l ih =>
    by_cases hp : p a = true
    · simp only [List.filter_cons, hp, h a hp, if_true]
      exact ih.cons₂ a
    · simp only [Bool.not_eq_true] at hp
      simp only [List.filter_cons, hp, Bool.false_eq_true, if_false]
      by_cases hq : q a = true
      · rw [hq]; simpa using ih.cons a
      · simp only [Bool.not_eq_true] at hq
        rw [hq]; simpa using ih

/-- Splitting a count over two pointwise-disjoint predicates. -/
theorem countP_or_disjoint {l : List α} {p q : α → Bool}
    (h : ∀ a ∈ l, ¬(p a = true ∧ q a = true)) :
    l.countP (fun a => p a || q a) = l.countP p + l.countP q := by
  induction l with
  | nil => simp
  | cons a l ih =>
    have ha := h a (by simp)
    have ih' := ih (fun b hb => h b (by simp [hb]))
    by_cases hp : p a = true <;> by_cases hq : q a = true
    · exact absurd ⟨hp, hq⟩ ha
    all_goals
      simp only [List.countP_cons, hp, hq, ih', Bool.or_true, Bool.true_or,
        Bool.or_false, Bool.false_or, Bool.false_eq_true, if_true, if_false]
      omega

/-- A filter and its complement partition the length. -/
theorem length_filter_add_length_filter_not (l : List α) (p : α → Bool) :
    (l.filter p).length + (l.filter (fun a => !p a)).length = l.length := by
  induction l with
  | nil => simp
  | cons a l ih =>
    by_cases hp : p a = true <;> simp [List.filter_cons, hp] <;> omega

/-! ## Well-formedness of the ticket table -/

/-- Primary keys are unique. -/
def IdsNodup (ts : List Ticket) : Prop := (ts.map (·.id)).Nodup

/-- Ticket numbers are unique within a raffle (the `on_conflict`
key `raffle_id,ticket_number`). -/
def NumsNodup (rid : Nat) (ts : List Ticket) : Prop :=
  ((ts.filter fun t => t.raffleId == rid).map (·.number)).Nodup

/-- Every ticket of the raffle has a number inside `1..capacity`. -/
def InRange (rid cap : Nat) (ts : List Ticket) : Prop :=
  ∀ t ∈ ts, t.raffleId = rid → 1 ≤ t.number ∧ t.number ≤ cap

/-- The hold token is fresh: stamped on no existing row (`uuid4`). -/
def FreshHold (hold : Nat) (ts : List Ticket) : Prop :=
  ∀ t ∈ ts, t.reservedBy ≠ some hold

/-- Any row carrying the hold token is actively leased (true vacuously
for a fresh token, and preserved by this call's own stamps). -/
def HoldActive (hold now : Nat) (ts : List Ticket) : Prop :=
  ∀ t ∈ ts, t.reservedBy = some hold → untilAfter now t = true

/-- Paid plus actively-held tickets of a raffle: the quantity the
capacity invariant bounds. -/
def totalCount (rid now : Nat) (ts : List Ticket) : Nat :=
  countPaid rid ts + countReservedActive rid now ts

/-! ## Pointwise lemmas about the row transformations -/

theorem clearT_verified {rid now : Nat} {t : Ticket} (h : t.verified = true) :
    clearT rid now t = t := by
  simp [clearT, h]

theorem clearT_fields (rid now : Nat) (t : Ticket) :
    (clearT rid now t).id = t.id ∧ (clearT rid now t).raffleId = t.raffleId ∧
    (clearT rid now t).number = t.number ∧ (clearT rid now t).verified = t.verified := by
  unfold clearT
  split <;> simp

theorem stampT_of_guard_false {expires hold : Nat} {g : Ticket → Bool} {t : Ticket}
    (h : g t = false) : stampT expires hold g t = t := by
  simp [stampT, h]

theorem stampT_fields (expires hold : Nat) (g : Ticket → Bool) (t : Ticket) :
    (stampT expires hold g t).id = t.id ∧
    (stampT expires hold g t).raffleId = t.raffleId ∧
    (stampT expires hold g t).number = t.number ∧
    (stampT expires hold g t).verified = t.verified := by
  unfold stampT
  split <;> simp

/-- `clearT` never makes a row actively leased, never verifies one, and
only ever erases the hold token. -/
theorem untilAfter_eq_some {now u : Nat} {t : Ticket}
    (h : t.reservedUntil = some u) : untilAfter now t = decide (now < u) := by
  simp [untilAfter, h]

theorem untilAfter_eq_none {now : Nat} {t : Ticket}
    (h : t.reservedUntil = none) : untilAfter now t = false := by
  simp [untilAfter, h]

theorem clearT_untilAfter (rid now : Nat) (t : Ticket) :
    untilAfter now (clearT rid now t) = untilAfter now t := by
  unfold clearT
  split
  · rename_i h
    simp only [Bool.and_eq_true, beq_iff_eq] at h
    obtain ⟨⟨_, _⟩, hb⟩ := h
    unfold untilBefore at hb
    cases hu : t.reservedUntil with
    | none => rw [hu] at hb; exact absurd hb (by simp)
    | some u =>
      rw [hu] at hb
      simp only [decide_eq_true_eq] at hb
      have hnu : ¬ now < u := by omega
      simp [untilAfter, hu, hnu]
  · rfl

theorem clearT_state (rid now : Nat) (t : Ticket) :
    ticketState now (clearT rid now t) = ticketState now t := by
  unfold ticketState
  rw [(clearT_fields rid now t).2.2.2, clearT_untilAfter]

theorem clearT_reservedBy (rid now : Nat) (t : Ticket) :
    (clearT rid now t).reservedBy = t.reservedBy ∨
    (clearT rid now t).reservedBy = none := by
  unfold clearT
  split <;> simp

/-! ## Counting under a claim-update

The master lemma: stamping every row matching a guard that selects only
unverified, currently-free rows of the raffle leaves the paid count
unchanged and increases the active-hold count by exactly the number of
stamped rows. -/

theorem countPaid_map_stamp (rid expires hold : Nat) (g : Ticket → Bool)
    (ts : List Ticket) :
    countPaid rid (ts.map (stampT expires hold g)) = countPaid rid ts := by
  induction ts with
  | nil => rfl
  | cons t ts ih =>
    have hf := stampT_fields expires hold g t
    simp only [countPaid, List.map_cons, List.countP_cons] at *
    rw [ih, hf.2.1, hf.2.2.2]

theorem countAct_map_stamp (rid now expires hold : Nat) (g : Ticket → Bool)
    (ts : List Ticket) (hexp : now < expires)
    (hg : ∀ t, g t = true →
      t.raffleId = rid ∧ t.verified = false ∧ untilAfter now t = false) :
    countReservedActive rid now (ts.map (stampT expires hold g)) =
      countReservedActive rid now ts + ts.countP g := by
  induction ts with
  | nil => rfl
  | cons t ts ih =>
    simp only [countReservedActive] at *
    rw [List.map_cons, List.countP_cons, List.countP_cons, List.countP_cons, ih]
    by_cases hgt : g t = true
    · obtain ⟨h1, h2, h3⟩ := hg t hgt
      have hs : stampT expires hold g t =
          { t with reservedUntil := some expires, reservedBy := some hold } := by
        simp [stampT, hgt]
      have holdp : (t.raffleId == rid && !t.verified && untilAfter now t) = false := by
        rw [h3]; simp
      rw [hs, holdp, hgt]
      simp only [Bool.false_eq_true, if_false, if_true]
      simp [untilAfter, h1, h2, hexp]
      omega
    · simp only [Bool.not_eq_true] at hgt
      rw [stampT_of_guard_false hgt, hgt]
      simp only [Bool.false_eq_true, if_false]
      omega

/-- The number of stamped rows is bounded by any duplicate-free bound on
their numbers: if the guard forces the row's number into `target` and
row numbers are unique in the raffle, at most `target.length` rows are
stamped. -/
theorem countP_guard_le_numbers (rid : Nat) (g : Ticket → Bool)
    (ts : List Ticket) (target : List Nat) (hnd : NumsNodup rid ts)
    (hg : ∀ t, g t = true → t.raffleId = rid ∧ t.number ∈ target) :
    ts.countP g ≤ target.length := by
  have hsub : List.Sublist (ts.filter g) (ts.filter fun t => t.raffleId == rid) := by
    apply filter_sublist_filter
    intro t ht
    simpa using (hg t ht).1
  have hnd' : ((ts.filter g).map (·.number)).Nodup :=
    (hnd.sublist (hsub.map (·.number)))
  have hsubset : ((ts.filter g).map (·.number)) ⊆ target := by
    intro n hn
    simp only [List.mem_map] at hn
    obtain ⟨t, ht, rfl⟩ := hn
    exact (hg t (List.of_mem_filter ht)).2
  calc ts.countP g = (ts.filter g).length := by
        rw [List.countP_eq_length_filter]
    _ = ((ts.filter g).map (·.number)).length := by rw [List.length_map]
    _ ≤ target.length := nodup_length_le hnd' hsubset

/-! ## The free-number set -/

theorem sortedNats_ins_perm (n : Nat) (l : List Nat) :
    (sortedNats.ins n l).Perm (n :: l) := by
  induction l with
  | nil => simp [sortedNats.ins]
  | cons m ms ih =>
    unfold sortedNats.ins
    by_cases h : n ≤ m
    · simp [h]
    · simp only [h, if_false]
      exact ((ih.cons m).trans (List.Perm.swap n m ms))

theorem sortedNats_perm (l : List Nat) : (sortedNats l).Perm l := by
  induction l with
  | nil => simp [sortedNats]
  | cons n rest ih =>
    unfold sortedNats
    exact (sortedNats_ins_perm n (sortedNats rest)).trans (ih.cons n)

/-- The taken-set membership test of the quantity mode. -/
def takenAt (rid now : Nat) (ts : List Ticket) (n : Nat) : Bool :=
  ts.any fun t => t.raffleId == rid && t.number == n && (t.verified || untilAfter now t)

theorem freeNumbers_eq_filter (rid cap now : Nat) (ts : List Ticket) :
    freeNumbers rid cap now ts = (List.range' 1 cap).filter fun n => !takenAt rid now ts n :=
  rfl

theorem freeNumbers_nodup (rid cap now : Nat) (ts : List Ticket) :
    (freeNumbers rid cap now ts).Nodup :=
  (List.nodup_range' 1 cap).filter _

/-- A free number has no verified or actively-leased row in the raffle. -/
theorem not_taken_of_mem_free {rid cap now n : Nat} {ts : List Ticket}
    (h : n ∈ freeNumbers rid cap now ts) :
    ∀ t ∈ ts, ¬(t.raffleId = rid ∧ t.number = n ∧
      (t.verified = true ∨ untilAfter now t = true)) := by
  intro t ht hc
  obtain ⟨h1, h2, h3⟩ := hc
  have hmem := List.of_mem_filter h
  simp only [Bool.not_eq_true', takenAt, List.any_eq_false] at hmem
  have := hmem t ht
  simp only [h1, h2, beq_self_eq_true, Bool.true_and, Bool.and_eq_false_iff,
    Bool.or_eq_false_iff] at this
  rcases h3 with h3 | h3
  · rw [h3] at this; simp at this
  · rw [h3] at this; simp at this

theorem mem_free_range {rid cap now n : Nat} {ts : List Ticket}
    (h : n ∈ freeNumbers rid cap now ts) : 1 ≤ n ∧ n ≤ cap := by
  have := List.mem_filter.mp h
  have hr := List.mem_range'_1.mp this.1
  omega

/-- The central capacity argument: in a well-formed, in-range table the
paid count, the active-hold count and the free-number count together
never exceed the capacity. -/
theorem totalCount_add_free_le (rid cap now : Nat) (ts : List Ticket)
    (hnd : NumsNodup rid ts) (hrange : InRange rid cap ts) :
    totalCount rid now ts + (freeNumbers rid cap now ts).length ≤ cap := by
  classical
  -- totalCount as a single count over the union predicate
  have hsplit : totalCount rid now ts =
      ts.countP fun t => (t.raffleId == rid && t.verified) ||
        (t.raffleId == rid && !t.verified && untilAfter now t) := by
    unfold totalCount countPaid countReservedActive
    rw [countP_or_disjoint]
    intro t _ hc
    obtain ⟨hp, hq⟩ := hc
    simp only [Bool.and_eq_true] at hp hq
    rw [hp.2] at hq
    simp at hq
  -- the taken numbers of the raffle, one per counted row
  set p : Ticket → Bool := fun t => (t.raffleId == rid && t.verified) ||
    (t.raffleId == rid && !t.verified && untilAfter now t) with hp
  have hpri : ∀ t, p t = true → t.raffleId = rid := by
    intro t ht
    rw [hp] at ht
    simp only [Bool.or_eq_true, Bool.and_eq_true, beq_iff_eq] at ht
    rcases ht with ht | ht
    · exact ht.1
    · exact ht.1.1
  have hsub : List.Sublist (ts.filter p) (ts.filter fun t => t.raffleId == rid) :=
    filter_sublist_filter (fun t ht => by simpa using hpri t ht)
  have hnodup : ((ts.filter p).map (·.number)).Nodup :=
    hnd.sublist (hsub.map (·.number))
  have hsubset : ((ts.filter p).map (·.number)) ⊆
      (List.range' 1 cap).filter (takenAt rid now ts) := by
    intro n hn
    simp only [List.mem_map] at hn
    obtain ⟨t, ht, rfl⟩ := hn
    have htp := List.of_mem_filter ht
    have htm := List.mem_of_mem_filter ht
    have hrid := hpri t htp
    rw [List.mem_filter]
    constructor
    · rw [List.mem_range'_1]
      have := hrange t htm hrid
      omega
    · unfold takenAt
      rw [List.any_eq_true]
      refine ⟨t, htm, ?_⟩
      rw [hp] at htp
      simp only [Bool.or_eq_true, Bool.and_eq_true] at htp
      rcases htp with htp | htp
      · simp [hrid, htp.2]
      · simp [hrid, htp.2]
  have hcount : totalCount rid now ts ≤
      ((List.range' 1 cap).filter (takenAt rid now ts)).length := by
    rw [hsplit, List.countP_eq_length_filter]
    calc (ts.filter p).length = ((ts.filter p).map (·.number)).length := by
          rw [List.length_map]
      _ ≤ _ := nodup_length_le hnodup hsubset
  have hpart := length_filter_add_length_filter_not (List.range' 1 cap)
    (takenAt rid now ts)
  rw [List.length_range'] at hpart
  have hfree : (freeNumbers rid cap now ts).length =
      ((List.range' 1 cap).filter fun n => !takenAt rid now ts n).length := rfl
  omega

/-! ## The existence upsert -/

theorem setVerifiedFalse_eq {t : Ticket} (h : t.verified = false) :
    ({ t with verified := false } : Ticket) = t := by
  cases t
  simp_all

/-- With every target number free of verified rows (as the quantity mode
guarantees), the upsert leaves existing rows untouched and appends fresh
unreserved placeholder rows whose numbers come from the target list;
raffle-local number uniqueness is preserved. -/
theorem upsertNumbers_spec (rid : Nat) : ∀ (target : List Nat) (ts : List Ticket)
    (base : Nat),
    (∀ n ∈ target, ∀ t ∈ ts, t.raffleId = rid → t.number = n → t.verified = false) →
    NumsNodup rid ts →
    ∃ newRows, (upsertNumbers rid target ts base).1 = ts ++ newRows ∧
      (∀ t ∈ newRows, t.raffleId = rid ∧ t.number ∈ target ∧ t.verified = false ∧
        t.reservedUntil = none ∧ t.reservedBy = none) ∧
      NumsNodup rid (ts ++ newRows) := by
  intro target
  induction target with
  | nil =>
    intro ts base _ hnd
    exact ⟨[], by simp [upsertNumbers], by simp, by simpa using hnd⟩
  | cons n rest ih =>
    intro ts base hfree hnd
    unfold upsertNumbers
    by_cases hex : ts.any (fun t => t.raffleId == rid && t.number == n) = true
    · rw [if_pos hex]
      have hid : (ts.map fun t =>
          if t.raffleId == rid && t.number == n then { t with verified := false }
          else t) = ts := by
        rw [List.map_congr_left ?_, List.map_id']
        intro t ht
        by_cases hc : (t.raffleId == rid && t.number == n) = true
        · simp only [hc, if_true]
          apply setVerifiedFalse_eq
          simp only [Bool.and_eq_true, beq_iff_eq] at hc
          exact hfree n (by simp) t ht hc.1 hc.2
        · simp only [Bool.not_eq_true] at hc
          simp [hc]
      rw [hid]
      obtain ⟨newRows, heq, hprops, hnodup⟩ :=
        ih ts base (fun m hm t ht => hfree m (by simp [hm]) t ht) hnd
      exact ⟨newRows, heq, fun t ht =>
        ⟨(hprops t ht).1, List.mem_cons_of_mem n (hprops t ht).2.1,
          (hprops t ht).2.2⟩, hnodup⟩
    · rw [if_neg hex]
      set newT : Ticket := ⟨base, rid, n, false, none, none, none, none⟩ with hnewT
      have hfree' : ∀ m ∈ rest, ∀ t ∈ ts ++ [newT],
          t.raffleId = rid → t.number = m → t.verified = false := by
        intro m hm t ht h1 h2
        rcases List.mem_append.mp ht with ht | ht
        · exact hfree m (by simp [hm]) t ht h1 h2
        · simp only [List.mem_singleton] at ht
          rw [ht, hnewT]
      have hnd' : NumsNodup rid (ts ++ [newT]) := by
        unfold NumsNodup at *
        rw [List.filter_append, List.map_append]
        have hnT : (List.filter (fun t => t.raffleId == rid) [newT]) = [newT] := by
          simp [hnewT]
        rw [hnT]
        rw [List.nodup_append]
        refine ⟨hnd, by simp, ?_⟩
        intro m hm
        simp only [List.mem_map, List.mem_filter] at hm
        obtain ⟨t, ⟨ht, hrid⟩, rfl⟩ := hm
        simp only [hnewT, List.map_cons, List.map_nil, List.mem_singleton]
        intro hcontra
        simp only [Bool.not_eq_true, List.any_eq_false] at hex
        have := hex t ht
        simp only [beq_iff_eq] at hrid
        simp [hrid, hcontra] at this
      obtain ⟨newRows', heq, hprops, hnodup⟩ := ih (ts ++ [newT]) (base + 1) hfree' hnd'
      refine ⟨newT :: newRows', ?_, ?_, ?_⟩
      · rw [heq, List.append_assoc]
        rfl
      · intro t ht
        rcases List.mem_cons.mp ht with rfl | ht
        · exact ⟨rfl, by simp, rfl, rfl, rfl⟩
        · obtain ⟨h1, h2, h3⟩ := hprops t ht
          exact ⟨h1, by simp [h2], h3⟩
      · rw [show ts ++ newT :: newRows' = (ts ++ [newT]) ++ newRows' by
          rw [List.append_assoc]; rfl]
        exact hnodup

/-! ## Counting across the helper operations -/

theorem totalCount_append (rid now : Nat) (l₁ l₂ : List Ticket) :
    totalCount rid now (l₁ ++ l₂) = totalCount rid now l₁ + totalCount rid now l₂ := by
  unfold totalCount countPaid countReservedActive
  rw [List.countP_append, List.countP_append]
  omega

theorem totalCount_inactive_rows (rid now : Nat) (l : List Ticket)
    (h : ∀ t ∈ l, t.verified = false ∧ untilAfter now t = false) :
    totalCount rid now l = 0 := by
  unfold totalCount countPaid countReservedActive
  induction l with
  | nil => simp
  | cons t l ih =>
    obtain ⟨h1, h2⟩ := h t (by simp)
    have ih' := ih (fun u hu => h u (by simp [hu]))
    rw [List.countP_cons, List.countP_cons]
    simp only [h1, h2, Bool.and_false, if_false, Bool.false_eq_true]
    omega

theorem totalCount_map_stamp (rid now expires hold : Nat) (g : Ticket → Bool)
    (ts : List Ticket) (hexp : now < expires)
    (hg : ∀ t, g t = true →
      t.raffleId = rid ∧ t.verified = false ∧ untilAfter now t = false) :
    totalCount rid now (ts.map (stampT expires hold g)) =
      totalCount rid now ts + ts.countP g := by
  unfold totalCount
  rw [countPaid_map_stamp, countAct_map_stamp rid now expires hold g ts hexp hg]
  omega

theorem totalCount_clear (rid now : Nat) (ts : List Ticket) :
    totalCount rid now (clearExpiredReservations rid now ts) = totalCount rid now ts := by
  unfold totalCount countPaid countReservedActive clearExpiredReservations
  rw [List.countP_map, List.countP_map]
  have h1 : ∀ t ∈ ts, ((fun t => t.raffleId == rid && t.verified) ∘ clearT rid now) t =
      true ↔ (t.raffleId == rid && t.verified) = true := by
    intro t _
    have hf := clearT_fields rid now t
    simp only [Function.comp_apply, hf.2.1, hf.2.2.2]
  have h2 : ∀ t ∈ ts, ((fun t => t.raffleId == rid && !t.verified && untilAfter now t) ∘
      clearT rid now) t = true ↔
      (t.raffleId == rid && !t.verified && untilAfter now t) = true := by
    intro t _
    have hf := clearT_fields rid now t
    simp only [Function.comp_apply, hf.2.1, hf.2.2.2, clearT_untilAfter]
  rw [List.countP_congr h1, List.countP_congr h2]

theorem freeCond_not_after {now : Nat} {t : Ticket} (h : freeCond now t = true) :
    untilAfter now t = false := by
  unfold freeCond at h
  unfold untilAfter
  cases hu : t.reservedUntil with
  | none => rfl
  | some u =>
    rw [hu] at h
    simp only [decide_eq_true_eq] at h
    simp
    omega

/-- Stamped rows are bounded by the distinct ids they must carry. -/
theorem countP_guard_le_ids (g : Ticket → Bool) (ts : List Ticket) (ids : List Nat)
    (hnd : IdsNodup ts) (hg : ∀ t, g t = true → t.id ∈ ids) :
    ts.countP g ≤ ids.length := by
  have hsubl : (ts.filter g).Sublist ts := List.filter_sublist ts
  have hnd' : ((ts.filter g).map (·.id)).Nodup :=
    hnd.sublist (hsubl.map (·.id))
  have hsubset : ((ts.filter g).map (·.id)) ⊆ ids := by
    intro n hn
    simp only [List.mem_map] at hn
    obtain ⟨t, ht, rfl⟩ := hn
    exact hg t (List.of_mem_filter ht)
  calc ts.countP g = ((ts.filter g).map (·.id)).length := by
        rw [List.countP_eq_length_filter, List.length_map]
    _ ≤ ids.length := nodup_length_le hnd' hsubset

/-- `NumsNodup` transports along any map that preserves the raffle id
and the number. -/
theorem numsNodup_map {rid : Nat} {ts : List Ticket} (f : Ticket → Ticket)
    (hf : ∀ t, (f t).raffleId = t.raffleId ∧ (f t).number = t.number)
    (hnd : NumsNodup rid ts) : NumsNodup rid (ts.map f) := by
  unfold NumsNodup at *
  have h1 : (ts.map f).filter (fun t => t.raffleId == rid) =
      (ts.filter fun t => t.raffleId == rid).map f := by
    rw [List.filter_map]
    congr 1
    apply List.filter_congr
    intro t _
    simp [Function.comp_apply, (hf t).1]
  rw [h1, List.map_map]
  have h2 : ((·.number) ∘ f : Ticket → Nat) = (·.number) := by
    funext t
    exact (hf t).2
  rw [h2]
  exact hnd

theorem inRange_map {rid cap : Nat} {ts : List Ticket} (f : Ticket → Ticket)
    (hf : ∀ t, (f t).raffleId = t.raffleId ∧ (f t).number = t.number)
    (hr : InRange rid cap ts) : InRange rid cap (ts.map f) := by
  intro t' ht' hrid
  obtain ⟨t, ht, rfl⟩ := List.mem_map.mp ht'
  rw [(hf t).1] at hrid
  rw [(hf t).2]
  exact hr t ht hrid

theorem stampT_preserves (expires hold : Nat) (g : Ticket → Bool) :
    ∀ t, (stampT expires hold g t).raffleId = t.raffleId ∧
      (stampT expires hold g t).number = t.number := by
  intro t
  exact ⟨(stampT_fields expires hold g t).2.1, (stampT_fields expires hold g t).2.2.1⟩

theorem clearT_preserves (rid now : Nat) :
    ∀ t, (clearT rid now t).raffleId = t.raffleId ∧
      (clearT rid now t).number = t.number := by
  intro t
  exact ⟨(clearT_fields rid now t).2.1, (clearT_fields rid now t).2.2.1⟩

/-- The by-numbers creation loop increases the paid + active count by at
most one per processed number. -/
theorem createNumbers_le (rid now expires hold : Nat) (hexp : now < expires) :
    ∀ (nums : List Nat) (ts : List Ticket) (base : Nat) (acc : List Nat),
    NumsNodup rid ts →
    totalCount rid now (createNumbers rid now expires hold nums ts base acc).1.1 ≤
      totalCount rid now ts + nums.length := by
  intro nums
  induction nums with
  | nil =>
    intro ts base acc _
    simp [createNumbers]
  | cons n rest ih =>
    intro ts base acc hnd
    unfold createNumbers
    by_cases hex : ts.any (fun t => t.raffleId == rid && t.number == n) = true
    · rw [if_pos hex]
      set g : Ticket → Bool := fun t =>
        t.raffleId == rid && t.number == n && t.verified == false && freeCond now t
        with hgdef
      have hg : ∀ t, g t = true →
          t.raffleId = rid ∧ t.verified = false ∧ untilAfter now t = false := by
        intro t ht
        rw [hgdef] at ht
        simp only [Bool.and_eq_true, beq_iff_eq] at ht
        exact ⟨ht.1.1.1, ht.1.2, freeCond_not_after ht.2⟩
      have hcount : totalCount rid now (ts.map (stampT expires hold g)) =
          totalCount rid now ts + ts.countP g :=
        totalCount_map_stamp rid now expires hold g ts hexp hg
      have hle1 : ts.countP g ≤ 1 := by
        have hnd' : ((ts.filter g).map (·.number)).Nodup := by
          apply hnd.sublist
          apply List.Sublist.map
          apply filter_sublist_filter
          intro t ht
          rw [hgdef] at ht
          simp only [Bool.and_eq_true] at ht
          exact ht.1.1.1
        have hconst : ∀ x ∈ (ts.filter g).map (·.number), x = n := by
          intro x hx
          obtain ⟨t, ht, rfl⟩ := List.mem_map.mp hx
          have := List.of_mem_filter ht
          rw [hgdef] at this
          simp only [Bool.and_eq_true, beq_iff_eq] at this
          exact this.1.1.2
        calc ts.countP g = ((ts.filter g).map (·.number)).length := by
              rw [List.countP_eq_length_filter, List.length_map]
          _ ≤ 1 := nodup_const_length_le_one hnd' hconst
      have hnd2 : NumsNodup rid (ts.map (stampT expires hold g)) :=
        numsNodup_map _ (stampT_preserves expires hold g) hnd
      simp only []
      split
      · rename_i r rest' heq
        have := ih (ts.map (stampT expires hold g)) base (r.id :: acc) hnd2
        rw [hcount] at this
        simp only [List.length_cons]
        omega
      · simp only [List.length_cons]
        rw [hcount]
        omega
    · rw [if_neg hex]
      set newT : Ticket := ⟨base, rid, n, false, some expires, some hold, none, none⟩
        with hnewT
      have hnd' : NumsNodup rid (ts ++ [newT]) := by
        unfold NumsNodup at *
        rw [List.filter_append, List.map_append]
        have hnT : (List.filter (fun t => t.raffleId == rid) [newT]) = [newT] := by
          simp [hnewT]
        rw [hnT, List.nodup_append]
        refine ⟨hnd, by simp, ?_⟩
        intro m hm
        simp only [List.mem_map, List.mem_filter] at hm
        obtain ⟨t, ⟨ht, hrid⟩, rfl⟩ := hm
        simp only [hnewT, List.map_cons, List.map_nil, List.mem_singleton]
        intro hcontra
        simp only [Bool.not_eq_true, List.any_eq_false] at hex
        have := hex t ht
        simp only [beq_iff_eq] at hrid
        simp [hrid, hcontra] at this
      have hone : totalCount rid now (ts ++ [newT]) = totalCount rid now ts + 1 := by
        rw [totalCount_append]
        unfold totalCount countPaid countReservedActive
        have hafter : untilAfter now newT = true := by
          rw [hnewT]
          unfold untilAfter
          simpa using hexp
        simp [hnewT, List.countP_cons, hafter]
      have := ih (ts ++ [newT]) (base + 1) (base :: acc) hnd'
      rw [hone] at this
      simp only [List.length_cons]
      omega

theorem inRange_append {rid cap : Nat} {l₁ l₂ : List Ticket}
    (h₁ : InRange rid cap l₁) (h₂ : InRange rid cap l₂) :
    InRange rid cap (l₁ ++ l₂) := by
  intro t ht hrid
  rcases List.mem_append.mp ht with ht | ht
  · exact h₁ t ht hrid
  · exact h₂ t ht hrid

/-- Specification of one quantity-mode attempt: well-formedness is
preserved, a successful attempt leaves the paid + active count within
capacity, and a short free set aborts without touching the table. -/
theorem qtyAttempt_spec (rid cap now expires hold qty : Nat)
    (shuffle : List Nat → List Nat) (hperm : ∀ l, (shuffle l).Perm l)
    (hexp : now < expires) (ts : List Ticket) (base : Nat)
    (hnd : NumsNodup rid ts) (hrange : InRange rid cap ts) :
    NumsNodup rid (qtyAttempt rid cap now expires hold qty shuffle ts base).1.1 ∧
    InRange rid cap (qtyAttempt rid cap now expires hold qty shuffle ts base).1.1 ∧
    (∀ ids, (qtyAttempt rid cap now expires hold qty shuffle ts base).2 = .ok ids →
      totalCount rid now (qtyAttempt rid cap now expires hold qty shuffle ts base).1.1 ≤
        cap) ∧
    ((freeNumbers rid cap now ts).length < qty →
      qtyAttempt rid cap now expires hold qty shuffle ts base =
        ((ts, base), .error .noCupos)) := by
  unfold qtyAttempt
  simp only []
  by_cases hq : (freeNumbers rid cap now ts).length < qty
  · rw [if_pos hq]
    refine ⟨hnd, hrange, ?_, fun _ => rfl⟩
    intro ids h
    exact Except.noConfusion h
  · rw [if_neg hq]
    set free := freeNumbers rid cap now ts with hfree
    set target := sortedNats ((shuffle free).take qty) with htarget
    have htsub : ∀ n ∈ target, n ∈ free := by
      intro n hn
      rw [htarget] at hn
      have h1 := (sortedNats_perm _).mem_iff.mp hn
      have h2 := List.mem_of_mem_take h1
      exact (hperm free).mem_iff.mp h2
    have htlen : target.length = qty := by
      rw [htarget, (sortedNats_perm _).length_eq, List.length_take,
        (hperm free).length_eq]
      omega
    have hfreev : ∀ n ∈ target, ∀ t ∈ ts, t.raffleId = rid → t.number = n →
        t.verified = false := by
      intro n hn t ht h1 h2
      by_contra hv
      simp only [Bool.not_eq_false] at hv
      exact not_taken_of_mem_free (htsub n hn) t ht ⟨h1, h2, Or.inl hv⟩
    obtain ⟨newRows, hueq, hprops, hund⟩ :=
      upsertNumbers_spec rid target ts base hfreev hnd
    set g : Ticket → Bool := fun t =>
      t.raffleId == rid && t.verified == false && target.contains t.number &&
        freeCond now t with hgdef
    have hg : ∀ t, g t = true →
        t.raffleId = rid ∧ t.verified = false ∧ untilAfter now t = false := by
      intro t ht
      rw [hgdef] at ht
      simp only [Bool.and_eq_true, beq_iff_eq] at ht
      exact ⟨ht.1.1.1, ht.1.1.2, freeCond_not_after ht.2⟩
    have hnewRange : InRange rid cap newRows := by
      intro t ht _
      have := (hprops t ht).2.1
      exact mem_free_range (htsub _ this)
    have hnewInactive : ∀ t ∈ newRows, t.verified = false ∧
        untilAfter now t = false := by
      intro t ht
      obtain ⟨_, _, h3, h4, _⟩ := hprops t ht
      exact ⟨h3, untilAfter_eq_none h4⟩
    have hnd2 : NumsNodup rid ((upsertNumbers rid target ts base).1.map
        (stampT expires hold g)) := by
      rw [hueq]
      exact numsNodup_map _ (stampT_preserves expires hold g) hund
    have hr2 : InRange rid cap ((upsertNumbers rid target ts base).1.map
        (stampT expires hold g)) := by
      rw [hueq]
      exact inRange_map _ (stampT_preserves expires hold g)
        (inRange_append hrange hnewRange)
    have hbound : totalCount rid now ((upsertNumbers rid target ts base).1.map
        (stampT expires hold g)) ≤ cap := by
      rw [hueq]
      rw [totalCount_map_stamp rid now expires hold g _ hexp hg]
      have h1 : totalCount rid now (ts ++ newRows) = totalCount rid now ts := by
        rw [totalCount_append, totalCount_inactive_rows rid now newRows hnewInactive]
        omega
      have h2 : (ts ++ newRows).countP g ≤ target.length := by
        apply countP_guard_le_numbers rid g _ target hund
        intro t ht
        rw [hgdef] at ht
        simp only [Bool.and_eq_true, beq_iff_eq] at ht
        exact ⟨ht.1.1.1, List.mem_of_elem_eq_true ht.1.2⟩
      have h3 := totalCount_add_free_le rid cap now ts hnd hrange
      rw [← hfree] at h3
      omega
    split
    · exact ⟨hnd2, hr2, fun ids _ => hbound, fun hc => absurd hc hq⟩
    · refine ⟨hnd2, hr2, ?_, fun hc => absurd hc hq⟩
      intro ids h
      exact Except.noConfusion h

theorem idsNodup_map {ts : List Ticket} (f : Ticket → Ticket)
    (hf : ∀ t, (f t).id = t.id) (hnd : IdsNodup ts) : IdsNodup (ts.map f) := by
  unfold IdsNodup at *
  rw [List.map_map]
  have : ((·.id) ∘ f : Ticket → Nat) = (·.id) := by
    funext t
    exact hf t
  rw [this]
  exact hnd

theorem now_lt_expires (now : Nat) : now < now + leaseLen := by
  unfold leaseLen
  omega

/-- C1 (amended).  Provided every existing ticket of the raffle carries
a number inside `1..capacity` (and the table is well-formed: unique ids,
unique numbers per raffle, and the quantity-mode shuffle permutes its
input), every successful `reserve_tickets` call — in any of the three
allocation modes — leaves `count_paid + count_active_holds ≤ capacity`.
Without the in-range condition the invariant fails: see
`reserve_tickets_capacity_counterexample`, where out-of-range verified
rows plus a retried partially-failed first claim overshoot capacity. -/
theorem reserve_tickets_capacity
    (raffle : Raffle) (now hold nextId : Nat) (shuffle : List Nat → List Nat)
    (ticketIds ticketNumbers : List Nat) (qty : Nat) (ts : List Ticket) (cap : Nat)
    (hcap : extractCapacity raffle = some cap)
    (hperm : ∀ l, (shuffle l).Perm l)
    (hids : IdsNodup ts) (hnums : NumsNodup raffle.id ts)
    (hrange : InRange raffle.id cap ts)
    (rows : List Ticket)
    (hok : (reserve_tickets raffle now hold nextId shuffle ticketIds ticketNumbers
      qty ts).result = .ok rows) :
    totalCount raffle.id now
      (reserve_tickets raffle now hold nextId shuffle ticketIds ticketNumbers
        qty ts).tickets ≤ cap := by
  have hexp := now_lt_expires now
  unfold reserve_tickets at *
  by_cases hact : (raffle.active == false) = true
  · rw [if_pos hact] at hok
    exact Except.noConfusion hok
  rw [if_neg hact] at hok ⊢
  rw [hcap] at hok ⊢
  dsimp only [] at hok ⊢
  set rid := raffle.id with hrid
  set ts1 := clearExpiredReservations rid now ts with hts1
  have hnd1 : NumsNodup rid ts1 := numsNodup_map _ (clearT_preserves rid now) hnums
  have hid1 : IdsNodup ts1 :=
    idsNodup_map _ (fun t => (clearT_fields rid now t).1) hids
  have hr1 : InRange rid cap ts1 := inRange_map _ (clearT_preserves rid now) hrange
  have htc1 : totalCount rid now ts1 = totalCount rid now ts := totalCount_clear rid now ts
  by_cases hti : ticketIds ≠ []
  · -- mode 1: explicit ids
    rw [if_pos hti] at hok ⊢
    by_cases hcapf : cap < countPaid rid ts1 + countReservedActive rid now ts1 +
      ticketIds.length
    · rw [if_pos hcapf] at hok
      exact Except.noConfusion hok
    rw [if_neg hcapf] at hok ⊢
    set g := idsClaimGuard rid now ticketIds with hgdef
    have hg : ∀ t, g t = true →
        t.raffleId = rid ∧ t.verified = false ∧ untilAfter now t = false := by
      intro t ht
      rw [hgdef] at ht
      unfold idsClaimGuard at ht
      simp only [Bool.and_eq_true, beq_iff_eq] at ht
      exact ⟨ht.1.1.2, ht.1.2, freeCond_not_after ht.2⟩
    have hcount : totalCount rid now (ts1.map (stampT (now + leaseLen) hold g)) =
        totalCount rid now ts1 + ts1.countP g :=
      totalCount_map_stamp rid now (now + leaseLen) hold g ts1 hexp hg
    have hle : ts1.countP g ≤ ticketIds.length := by
      apply countP_guard_le_ids g ts1 ticketIds hid1
      intro t ht
      rw [hgdef] at ht
      unfold idsClaimGuard at ht
      simp only [Bool.and_eq_true] at ht
      exact List.mem_of_elem_eq_true ht.1.1.1
    by_cases hrl : (claimedBy rid now hold (fun t => ticketIds.contains t.id)
        (ts1.map (stampT (now + leaseLen) hold g))).length ≠ ticketIds.length
    · rw [if_pos hrl] at hok
      exact Except.noConfusion hok
    · rw [if_neg hrl] at hok ⊢
      show totalCount rid now (ts1.map (stampT (now + leaseLen) hold g)) ≤ cap
      unfold totalCount at *
      omega
  · -- ticketIds empty
    rw [if_neg hti] at hok ⊢
    by_cases htn : ticketNumbers ≠ []
    · -- mode 2: explicit numbers
      rw [if_pos htn] at hok ⊢
      set uniq := sortedNats ((ticketNumbers.filter (0 < ·)).dedup) with huniq
      by_cases hue : uniq = []
      · rw [if_pos hue] at hok
        exact Except.noConfusion hok
      rw [if_neg hue] at hok ⊢
      by_cases hcapf : cap < countPaid rid ts1 + countReservedActive rid now ts1 +
        uniq.length
      · rw [if_pos hcapf] at hok
        exact Except.noConfusion hok
      rw [if_neg hcapf] at hok ⊢
      set g2 : Ticket → Bool := fun t =>
        t.raffleId == rid && uniq.contains t.number && t.verified == false &&
          freeCond now t with hg2def
      have hg2 : ∀ t, g2 t = true →
          t.raffleId = rid ∧ t.verified = false ∧ untilAfter now t = false := by
        intro t ht
        rw [hg2def] at ht
        simp only [Bool.and_eq_true, beq_iff_eq] at ht
        exact ⟨ht.1.1.1, ht.1.2, freeCond_not_after ht.2⟩
      set ts2 := ts1.map (stampT (now + leaseLen) hold g2) with hts2
      have hcount2 : totalCount rid now ts2 =
          totalCount rid now ts1 + ts1.countP g2 :=
        totalCount_map_stamp rid now (now + leaseLen) hold g2 ts1 hexp hg2
      have hnd2 : NumsNodup rid ts2 :=
        numsNodup_map _ (stampT_preserves (now + leaseLen) hold g2) hnd1
      set updatedRows := claimedBy rid now hold (fun t => uniq.contains t.number) ts2
        with hupr
      set updatedNums := updatedRows.map (·.number) with hupn
      set toCreate := uniq.filter (fun n => !updatedNums.contains n) with htoc
      -- every stamped number is recorded in updatedNums
      have hstamped : ∀ n ∈ (ts1.filter g2).map (·.number), n ∈ uniq ∧
          updatedNums.contains n = true := by
        intro n hn
        obtain ⟨t, ht, rfl⟩ := List.mem_map.mp hn
        have hgt := List.of_mem_filter ht
        have htm := List.mem_of_mem_filter ht
        have hprops := hg2 t hgt
        have hguard : (stampT (now + leaseLen) hold g2 t) =
            { t with reservedUntil := some (now + leaseLen),
                     reservedBy := some hold } := by
          simp [stampT, hgt]
        have hmem2 : (stampT (now + leaseLen) hold g2 t) ∈ ts2 := by
          rw [hts2]
          exact List.mem_map_of_mem _ htm
        have hinuniq : uniq.contains t.number = true := by
          rw [hg2def] at hgt
          simp only [Bool.and_eq_true] at hgt
          exact hgt.1.1.2
        have hinupd : (stampT (now + leaseLen) hold g2 t) ∈ updatedRows := by
          rw [hupr]
          unfold claimedBy
          rw [List.mem_filter]
          refine ⟨hmem2, ?_⟩
          rw [hguard]
          have hafter : untilAfter now ({ t with
              reservedUntil := some (now + leaseLen),
              reservedBy := some hold } : Ticket) = true := by
            unfold untilAfter
            simpa using hexp
          simp only [Bool.and_eq_true, beq_iff_eq]
          refine ⟨⟨⟨⟨?_, ?_⟩, ?_⟩, ?_⟩, ?_⟩
          · exact hinuniq
          · exact hprops.1
          · exact hprops.2.1
          · trivial
          · exact hafter
        constructor
        · exact List.mem_of_elem_eq_true hinuniq
        · apply List.elem_eq_true_of_mem
          rw [hupn]
          have : ((stampT (now + leaseLen) hold g2 t)).number = t.number :=
            (stampT_preserves (now + leaseLen) hold g2 t).2
          rw [← this]
          exact List.mem_map_of_mem _ hinupd
      have hle2 : ts1.countP g2 ≤
          (uniq.filter (fun n => updatedNums.contains n)).length := by
        have hndn : ((ts1.filter g2).map (·.number)).Nodup := by
          apply hnd1.sublist
          apply List.Sublist.map
          apply filter_sublist_filter
          intro t ht
          rw [hg2def] at ht
          simp only [Bool.and_eq_true] at ht
          exact ht.1.1.1
        have hsubset : ((ts1.filter g2).map (·.number)) ⊆
            uniq.filter (fun n => updatedNums.contains n) := by
          intro n hn
          obtain ⟨h1, h2⟩ := hstamped n hn
          rw [List.mem_filter]
          exact ⟨h1, h2⟩
        calc ts1.countP g2 = ((ts1.filter g2).map (·.number)).length := by
              rw [List.countP_eq_length_filter, List.length_map]
          _ ≤ _ := nodup_length_le hndn hsubset
      have hpart : (uniq.filter (fun n => updatedNums.contains n)).length +
          toCreate.length = uniq.length := by
        rw [htoc]
        exact length_filter_add_length_filter_not uniq _
      have hcreate := createNumbers_le rid now (now + leaseLen) hold hexp toCreate
        ts2 nextId [] hnd2
      rcases hcn : createNumbers rid now (now + leaseLen) hold toCreate ts2 nextId []
        with ⟨⟨ts3, nextId3⟩, rescn⟩
      rw [hcn] at hok hcreate
      cases rescn with
      | error e => exact Except.noConfusion hok
      | ok createdIds =>
        show totalCount rid now ts3 ≤ cap
        have hc3 : totalCount rid now ts3 ≤ totalCount rid now ts2 +
            toCreate.length := hcreate
        unfold totalCount at *
        omega
    · -- mode 3: quantity
      rw [if_neg htn] at hok ⊢
      by_cases hq1 : qty < 1
      · rw [if_pos hq1] at hok
        exact Except.noConfusion hok
      rw [if_neg hq1] at hok ⊢
      by_cases hcapf : cap < countPaid rid ts1 + countReservedActive rid now ts1 + qty
      · rw [if_pos hcapf] at hok
        exact Except.noConfusion hok
      rw [if_neg hcapf] at hok ⊢
      have spec1 := qtyAttempt_spec rid cap now (now + leaseLen) hold qty shuffle
        hperm hexp ts1 nextId hnd1 hr1
      rcases h1 : qtyAttempt rid cap now (now + leaseLen) hold qty shuffle ts1 nextId
        with ⟨⟨ts2, n2⟩, res1⟩
      rw [h1] at spec1 hok
      obtain ⟨hnd2, hr2, hbound1, _⟩ := spec1
      cases res1 with
      | ok ids =>
        exact hbound1 ids rfl
      | error e1 =>
        dsimp only [] at hok ⊢
        have spec2 := qtyAttempt_spec rid cap now (now + leaseLen) hold qty shuffle
          hperm hexp ts2 n2 hnd2 hr2
        rcases h2 : qtyAttempt rid cap now (now + leaseLen) hold qty shuffle ts2 n2
          with ⟨⟨ts3, n3⟩, res2⟩
        rw [h2] at spec2 hok
        obtain ⟨_, _, hbound2, _⟩ := spec2
        cases res2 with
        | ok ids =>
          exact hbound2 ids rfl
        | error e2 =>
          exact Except.noConfusion hok

/-! Concrete scenario refuting C1 as stated: a raffle of capacity 4 with
two verified tickets numbered outside `1..4` (numbers 5 and 6, sellable
via the by-numbers mode which never range-checks) and one ticket whose
lease expires exactly at the call instant.  The first quantity-attempt
claims one ticket and comes up short; the retry claims two more, so the
call succeeds holding 3 active tickets while 2 are sold: 5 > 4. -/

def c1Raffle : Raffle := ⟨1, true, 1000, some 4, none, none⟩

def c1Shuffle : List Nat → List Nat
  | [1, 2, 3, 4] => [2, 1, 3, 4]
  | [1, 3, 4] => [3, 4, 1]
  | l => l

def c1Tickets : List Ticket :=
  [⟨11, 1, 1, false, some 100, none, none, none⟩,
   ⟨12, 1, 5, true, none, none, none, none⟩,
   ⟨13, 1, 6, true, none, none, none, none⟩]

/-- C1 counterexample: the quantity-mode reservation succeeds yet leaves
`count_paid + count_active_holds = 5` in a raffle of capacity 4. -/
theorem reserve_tickets_capacity_counterexample :
    (reserve_tickets c1Raffle 100 77 50 c1Shuffle [] [] 2 c1Tickets).result.isOk =
      true ∧
    extractCapacity c1Raffle = some 4 ∧
    countPaid 1 (reserve_tickets c1Raffle 100 77 50 c1Shuffle [] [] 2
      c1Tickets).tickets +
      countReservedActive 1 100 (reserve_tickets c1Raffle 100 77 50 c1Shuffle [] [] 2
        c1Tickets).tickets = 5 := by
  decide

def w1Raffle : Raffle := ⟨1, true, 1000, some 4, none, none⟩

/-- Witness for C1 (amended) at a concrete successful reservation. -/
theorem reserve_tickets_capacity_witness :
    totalCount 1 0 (reserve_tickets w1Raffle 0 9 100 (fun l => l) [] [] 1 []).tickets
      ≤ 4 :=
  reserve_tickets_capacity w1Raffle 0 9 100 (fun l => l) [] [] 1 [] 4 (by decide)
    (fun l => List.Perm.refl l) (by simp [IdsNodup]) (by simp [NumsNodup])
    (fun t ht => absurd ht (List.not_mem_nil t))
    [⟨100, 1, 1, false, some 10, some 9, none, none⟩] (by rfl)

/-! ## Claim C2: short free set ⟹ total failure -/

/-- Lazily clearing expired leases does not change which numbers are
free: an expired lease was already not counted as taken. -/
theorem freeNumbers_clear (rid cap now : Nat) (ts : List Ticket) :
    freeNumbers rid cap now (clearExpiredReservations rid now ts) =
      freeNumbers rid cap now ts := by
  unfold freeNumbers clearExpiredReservations
  apply List.filter_congr
  intro n _
  have : ((ts.map (clearT rid now)).any fun t =>
      t.raffleId == rid && t.number == n && (t.verified || untilAfter now t)) =
      (ts.any fun t =>
        t.raffleId == rid && t.number == n && (t.verified || untilAfter now t)) := by
    rw [List.any_map]
    congr 1
    funext t
    have hf := clearT_fields rid now t
    simp only [Function.comp_apply, hf.2.1, hf.2.2.1, hf.2.2.2, clearT_untilAfter]
  rw [this]

theorem ticketState_clear_map (rid now : Nat) (ts : List Ticket) :
    (clearExpiredReservations rid now ts).map (ticketState now) =
      ts.map (ticketState now) := by
  unfold clearExpiredReservations
  rw [List.map_map]
  apply List.map_congr_left
  intro t _
  exact clearT_state rid now t

theorem clear_no_hold {rid now hold : Nat} {ts : List Ticket}
    (hfresh : FreshHold hold ts) :
    ∀ t ∈ clearExpiredReservations rid now ts, t.reservedBy ≠ some hold := by
  intro t' ht'
  obtain ⟨t, ht, rfl⟩ := List.mem_map.mp ht'
  rcases clearT_reservedBy rid now t with h | h
  · rw [h]; exact hfresh t ht
  · rw [h]; simp

/-- C2.  If fewer ticket numbers are free (not verified, no unexpired
lease) than the quantity requested, the quantity-mode reservation fails:
the result is an error, no ticket is claimed under the fresh hold token,
and every ticket keeps its abstract free/held/sold state — the only
field effect possibly performed is the lazy clearing of already-expired
leases. -/
theorem reserve_qty_insufficient_frame
    (raffle : Raffle) (now hold nextId : Nat) (shuffle : List Nat → List Nat)
    (qty : Nat) (ts : List Ticket) (cap : Nat)
    (hcap : extractCapacity raffle = some cap)
    (hfree : (freeNumbers raffle.id cap now ts).length < qty)
    (hfresh : FreshHold hold ts) :
    (∃ e, (reserve_tickets raffle now hold nextId shuffle [] [] qty ts).result =
      .error e) ∧
    ((reserve_tickets raffle now hold nextId shuffle [] [] qty ts).tickets = ts ∨
      (reserve_tickets raffle now hold nextId shuffle [] [] qty ts).tickets =
        clearExpiredReservations raffle.id now ts) ∧
    (∀ t ∈ (reserve_tickets raffle now hold nextId shuffle [] [] qty ts).tickets,
      t.reservedBy ≠ some hold) ∧
    (reserve_tickets raffle now hold nextId shuffle [] [] qty ts).tickets.map
      (ticketState now) = ts.map (ticketState now) := by
  unfold reserve_tickets
  by_cases hact : (raffle.active == false) = true
  · rw [if_pos hact]
    exact ⟨⟨.noActiveRaffle, rfl⟩, Or.inl rfl, fun t ht => hfresh t ht, rfl⟩
  rw [if_neg hact, hcap]
  dsimp only []
  set rid := raffle.id with hrid
  set ts1 := clearExpiredReservations rid now ts with hts1
  have hfr1 : (freeNumbers rid cap now ts1).length < qty := by
    rw [hts1, freeNumbers_clear]
    exact hfree
  have hq1 : ¬ qty < 1 := by omega
  have hconc : (∃ e, (⟨ts1, nextId, .error RErr.noCupos⟩ : ReserveOut).result =
      .error e) ∧ (ts1 = ts ∨ ts1 = ts1) ∧
      (∀ t ∈ ts1, t.reservedBy ≠ some hold) ∧
      ts1.map (ticketState now) = ts.map (ticketState now) := by
    refine ⟨⟨.noCupos, rfl⟩, Or.inr rfl, ?_, ?_⟩
    · rw [hts1]
      exact clear_no_hold hfresh
    · rw [hts1]
      exact ticketState_clear_map rid now ts
  rw [if_neg (by simp : ¬(([] : List Nat) ≠ []))]
  rw [if_neg (by simp : ¬(([] : List Nat) ≠ []))]
  rw [if_neg hq1]
  by_cases hcapf : cap < countPaid rid ts1 + countReservedActive rid now ts1 + qty
  · rw [if_pos hcapf]
    exact ⟨hconc.1, Or.inr rfl, hconc.2.2.1, hconc.2.2.2⟩
  rw [if_neg hcapf]
  -- each attempt aborts before any mutation when the free set is short
  have ha1 : qtyAttempt rid cap now (now + leaseLen) hold qty shuffle ts1 nextId =
      ((ts1, nextId), .error .noCupos) := by
    unfold qtyAttempt
    simp only []
    rw [if_pos hfr1]
  rw [ha1]
  dsimp only []
  rw [ha1]
  dsimp only []
  rw [if_pos rfl]
  exact ⟨⟨.noCupos, rfl⟩, Or.inr rfl, hconc.2.2.1, hconc.2.2.2⟩

def c2Raffle : Raffle := ⟨1, true, 1000, some 1, none, none⟩

/-- Witness for C2: capacity 1, empty table, quantity 2. -/
theorem reserve_qty_insufficient_frame_witness :
    (∃ e, (reserve_tickets c2Raffle 0 7 100 (fun l => l) [] [] 2 []).result =
      .error e) ∧
    ((reserve_tickets c2Raffle 0 7 100 (fun l => l) [] [] 2 []).tickets = [] ∨
      (reserve_tickets c2Raffle 0 7 100 (fun l => l) [] [] 2 []).tickets =
        clearExpiredReservations c2Raffle.id 0 []) ∧
    (∀ t ∈ (reserve_tickets c2Raffle 0 7 100 (fun l => l) [] [] 2 []).tickets,
      t.reservedBy ≠ some 7) ∧
    (reserve_tickets c2Raffle 0 7 100 (fun l => l) [] [] 2 []).tickets.map
      (ticketState 0) = ([] : List Ticket).map (ticketState 0) :=
  reserve_qty_insufficient_frame c2Raffle 0 7 100 (fun l => l) 2 [] 1 (by decide)
    (by decide) (fun t ht => absurd ht (List.not_mem_nil t))

/-! ## Claim C9: verified tickets are immutable for the reservation
machinery -/

theorem mem_map_self {ts : List Ticket} {t : Ticket} (f : Ticket → Ticket)
    (hf : f t = t) (ht : t ∈ ts) : t ∈ ts.map f := by
  have := List.mem_map_of_mem f ht
  rwa [hf] at this

theorem stampT_mem_verified {expires hold : Nat} {g : Ticket → Bool}
    {ts : List Ticket} {t : Ticket} (ht : t ∈ ts)
    (hg : ∀ u, g u = true → u.verified = false) (hv : t.verified = true) :
    t ∈ ts.map (stampT expires hold g) := by
  apply mem_map_self _ _ ht
  apply stampT_of_guard_false
  by_contra hc
  simp only [Bool.not_eq_false] at hc
  rw [hg t hc] at hv
  exact Bool.noConfusion hv

theorem upsert_mem_of_not_target {rid : Nat} {t : Ticket} :
    ∀ {target : List Nat} {ts : List Ticket} {base : Nat}, t ∈ ts →
    (∀ n ∈ target, ¬(t.raffleId = rid ∧ t.number = n)) →
    t ∈ (upsertNumbers rid target ts base).1 := by
  intro target
  induction target with
  | nil => intro ts base ht _; simpa [upsertNumbers] using ht
  | cons n rest ih =>
    intro ts base ht hnt
    unfold upsertNumbers
    by_cases hex : ts.any (fun u => u.raffleId == rid && u.number == n) = true
    · rw [if_pos hex]
      apply ih
      · apply mem_map_self _ _ ht
        have : ¬(t.raffleId == rid && t.number == n) = true := by
          intro hc
          simp only [Bool.and_eq_true, beq_iff_eq] at hc
          exact hnt n (by simp) hc
        simp only [Bool.not_eq_true] at this
        simp [this]
      · intro m hm
        exact hnt m (by simp [hm])
    · rw [if_neg hex]
      apply ih
      · exact List.mem_append_left _ ht
      · intro m hm
        exact hnt m (by simp [hm])

theorem createNumbers_mem_verified {rid now expires hold : Nat} {t : Ticket} :
    ∀ {nums : List Nat} {ts : List Ticket} {base : Nat} {acc : List Nat},
    t ∈ ts → t.verified = true →
    t ∈ (createNumbers rid now expires hold nums ts base acc).1.1 := by
  intro nums
  induction nums with
  | nil => intro ts base acc ht _; simpa [createNumbers] using ht
  | cons n rest ih =>
    intro ts base acc ht hv
    unfold createNumbers
    by_cases hex : ts.any (fun u => u.raffleId == rid && u.number == n) = true
    · rw [if_pos hex]
      simp only []
      have hmem : t ∈ ts.map (stampT expires hold fun u =>
          u.raffleId == rid && u.number == n && u.verified == false &&
            freeCond now u) := by
        apply stampT_mem_verified ht ?_ hv
        intro u hu
        simp only [Bool.and_eq_true, beq_iff_eq] at hu
        exact hu.1.2
      split
      · exact ih hmem hv
      · exact hmem
    · rw [if_neg hex]
      exact ih (List.mem_append_left _ ht) hv

theorem qtyAttempt_mem_verified {rid cap now expires hold qty : Nat}
    {shuffle : List Nat → List Nat} {ts : List Ticket} {base : Nat} {t : Ticket}
    (hperm : ∀ l, (shuffle l).Perm l) (ht : t ∈ ts) (hv : t.verified = true) :
    t ∈ (qtyAttempt rid cap now expires hold qty shuffle ts base).1.1 := by
  unfold qtyAttempt
  simp only []
  by_cases hq : (freeNumbers rid cap now ts).length < qty
  · rw [if_pos hq]
    exact ht
  · rw [if_neg hq]
    have htsub : ∀ n ∈ sortedNats ((shuffle (freeNumbers rid cap now ts)).take qty),
        n ∈ freeNumbers rid cap now ts := by
      intro n hn
      have h1 := (sortedNats_perm _).mem_iff.mp hn
      have h2 := List.mem_of_mem_take h1
      exact (hperm _).mem_iff.mp h2
    have hmem1 : t ∈ (upsertNumbers rid
        (sortedNats ((shuffle (freeNumbers rid cap now ts)).take qty)) ts base).1 := by
      apply upsert_mem_of_not_target ht
      intro n hn hc
      exact not_taken_of_mem_free (htsub n hn) t ht ⟨hc.1, hc.2, Or.inl hv⟩
    have hmem2 : t ∈ (upsertNumbers rid
        (sortedNats ((shuffle (freeNumbers rid cap now ts)).take qty)) ts base).1.map
        (stampT expires hold fun u =>
          u.raffleId == rid && u.verified == false &&
            (sortedNats ((shuffle (freeNumbers rid cap now ts)).take qty)).contains
              u.number && freeCond now u) := by
      apply stampT_mem_verified hmem1 ?_ hv
      intro u hu
      simp only [Bool.and_eq_true, beq_iff_eq] at hu
      exact hu.1.1.2
    split <;> exact hmem2

theorem createNumbers_mem_verified' {rid now expires hold : Nat} {t : Ticket}
    {nums : List Nat} {ts ts3 : List Ticket} {base n3 : Nat} {acc : List Nat}
    {res : Except RErr (List Nat)}
    (heq : createNumbers rid now expires hold nums ts base acc = ((ts3, n3), res))
    (ht : t ∈ ts) (hv : t.verified = true) : t ∈ ts3 := by
  have := @createNumbers_mem_verified rid now expires hold t nums ts base acc ht hv
  rw [heq] at this
  exact this

theorem qtyAttempt_mem_verified' {rid cap now expires hold qty : Nat}
    {shuffle : List Nat → List Nat} {ts ts2 : List Ticket} {base n2 : Nat}
    {res : Except RErr (List Nat)} {t : Ticket}
    (heq : qtyAttempt rid cap now expires hold qty shuffle ts base = ((ts2, n2), res))
    (hperm : ∀ l, (shuffle l).Perm l) (ht : t ∈ ts) (hv : t.verified = true) :
    t ∈ ts2 := by
  have := @qtyAttempt_mem_verified rid cap now expires hold qty shuffle ts base t
    hperm ht hv
  rw [heq] at this
  exact this

/-- C9.  A verified ticket is never re-reservable: the expiry sweeps
(per-raffle and global), the public release endpoint and every mode of
`reserve_tickets` leave each verified ticket row entirely unchanged —
none ever stamps reservation fields onto, clears the verified flag of,
or releases a verified ticket.  (The quantity-mode upsert carries no
explicit `verified = false` filter, but its targets are drawn from the
free-number set, which never contains a verified ticket's number.) -/
theorem verified_ticket_immutable :
    (∀ (rid now : Nat) (ts : List Ticket), ∀ t ∈ ts, t.verified = true →
      t ∈ clearExpiredReservations rid now ts) ∧
    (∀ (now : Nat) (ts : List Ticket), ∀ t ∈ ts, t.verified = true →
      t ∈ sweepGlobal now ts) ∧
    (∀ (ids : List Nat) (ts : List Ticket), ∀ t ∈ ts, t.verified = true →
      t ∈ releaseTickets ids ts) ∧
    (∀ (raffle : Raffle) (now hold nextId : Nat) (shuffle : List Nat → List Nat)
      (tids tnums : List Nat) (qty : Nat) (ts : List Ticket),
      (∀ l, (shuffle l).Perm l) → ∀ t ∈ ts, t.verified = true →
      t ∈ (reserve_tickets raffle now hold nextId shuffle tids tnums qty ts).tickets) := by
  refine ⟨?_, ?_, ?_, ?_⟩
  · intro rid now ts t ht hv
    exact mem_map_self _ (clearT_verified hv) ht
  · intro now ts t ht hv
    apply mem_map_self _ ?_ ht
    simp [hv]
  · intro ids ts t ht hv
    apply mem_map_self _ ?_ ht
    simp [hv]
  · intro raffle now hold nextId shuffle tids tnums qty ts hperm t ht hv
    unfold reserve_tickets
    by_cases hact : (raffle.active == false) = true
    · rw [if_pos hact]; exact ht
    rw [if_neg hact]
    cases hcap : extractCapacity raffle with
    | none => exact ht
    | some cap =>
      dsimp only []
      have ht1 : t ∈ clearExpiredReservations raffle.id now ts :=
        mem_map_self _ (clearT_verified hv) ht
      by_cases hti : tids ≠ []
      · rw [if_pos hti]
        by_cases hcapf : cap < countPaid raffle.id
            (clearExpiredReservations raffle.id now ts) +
            countReservedActive raffle.id now
              (clearExpiredReservations raffle.id now ts) + tids.length
        · rw [if_pos hcapf]; exact ht1
        rw [if_neg hcapf]
        have ht2 : t ∈ (clearExpiredReservations raffle.id now ts).map
            (stampT (now + leaseLen) hold (idsClaimGuard raffle.id now tids)) := by
          apply stampT_mem_verified ht1 ?_ hv
          intro u hu
          unfold idsClaimGuard at hu
          simp only [Bool.and_eq_true, beq_iff_eq] at hu
          exact hu.1.2
        split <;> exact ht2
      · rw [if_neg hti]
        by_cases htn : tnums ≠ []
        · rw [if_pos htn]
          by_cases hue : sortedNats ((tnums.filter (0 < ·)).dedup) = []
          · rw [if_pos hue]; exact ht1
          rw [if_neg hue]
          by_cases hcapf : cap < countPaid raffle.id
              (clearExpiredReservations raffle.id now ts) +
              countReservedActive raffle.id now
                (clearExpiredReservations raffle.id now ts) +
              (sortedNats ((tnums.filter (0 < ·)).dedup)).length
          · rw [if_pos hcapf]; exact ht1
          rw [if_neg hcapf]
          have ht2 : t ∈ (clearExpiredReservations raffle.id now ts).map
              (stampT (now + leaseLen) hold fun u =>
                u.raffleId == raffle.id &&
                  (sortedNats ((tnums.filter (0 < ·)).dedup)).contains u.number &&
                  u.verified == false && freeCond now u) := by
            apply stampT_mem_verified ht1 ?_ hv
            intro u hu
            simp only [Bool.and_eq_true, beq_iff_eq] at hu
            exact hu.1.2
          split
          · rename_i ts3 n3 e heq
            exact createNumbers_mem_verified' heq ht2 hv
          · rename_i ts3 n3 cids heq
            exact createNumbers_mem_verified' heq ht2 hv
        · rw [if_neg htn]
          by_cases hq1 : qty < 1
          · rw [if_pos hq1]; exact ht1
          rw [if_neg hq1]
          by_cases hcapf : cap < countPaid raffle.id
              (clearExpiredReservations raffle.id now ts) +
              countReservedActive raffle.id now
                (clearExpiredReservations raffle.id now ts) + qty
          · rw [if_pos hcapf]; exact ht1
          rw [if_neg hcapf]
          split
          · rename_i ts2 n2 ids heq
            exact qtyAttempt_mem_verified' heq hperm ht1 hv
          · rename_i ts2 n2 e1 heq
            split
            · rename_i ts3 n3 ids2 heq2
              exact qtyAttempt_mem_verified' heq2 hperm
                (qtyAttempt_mem_verified' heq hperm ht1 hv) hv
            · rename_i ts3 n3 e2 heq2
              exact qtyAttempt_mem_verified' heq2 hperm
                (qtyAttempt_mem_verified' heq hperm ht1 hv) hv

def c9Ticket : Ticket := ⟨5, 1, 2, true, none, none, none, none⟩

/-- Witness for C9: a concrete verified ticket survives every operation
untouched. -/
theorem verified_ticket_immutable_witness :
    c9Ticket ∈ clearExpiredReservations 1 50 [c9Ticket] ∧
    c9Ticket ∈ sweepGlobal 50 [c9Ticket] ∧
    c9Ticket ∈ releaseTickets [5] [c9Ticket] ∧
    c9Ticket ∈ (reserve_tickets ⟨1, true, 1000, some 4, none, none⟩ 50 9 100
      (fun l => l) [] [] 1 [c9Ticket]).tickets :=
  ⟨verified_ticket_immutable.1 1 50 [c9Ticket] c9Ticket (by simp) rfl,
   verified_ticket_immutable.2.1 50 [c9Ticket] c9Ticket (by simp) rfl,
   verified_ticket_immutable.2.2.1 [5] [c9Ticket] c9Ticket (by simp) rfl,
   verified_ticket_immutable.2.2.2 ⟨1, true, 1000, some 4, none, none⟩ 50 9 100
     (fun l => l) [] [] 1 [c9Ticket] (fun l => List.Perm.refl l) c9Ticket
     (by simp) rfl⟩

/-! ## Claims C3 and C4: payment approval and rejection -/

/-- C3.  Approving a payment marks every ticket linked through the join
table `verified = true`, and touches no payment's frozen `amount_ves` /
`rate_used` — in particular they keep the values computed at submission
(`create_payment_for_reserved` freezes `amount_ves =
round2(total_usd * rate)` and `rate_used = rate`), whatever happens to
the rate cache in between. -/
theorem admin_approve_spec (db : DB) (pid : Nat)
    (h : ((db.links.filter fun l => l.paymentId == pid).map (·.ticketId)) ≠ []) :
    (∀ t ∈ (admin_verify_payment pid true db).1.tickets,
      ((db.links.filter fun l => l.paymentId == pid).map (·.ticketId)).contains t.id →
        t.verified = true) ∧
    ((admin_verify_payment pid true db).1.payments.map
        (fun p => (p.id, p.amountVes, p.rateUsed)) =
      db.payments.map (fun p => (p.id, p.amountVes, p.rateUsed))) ∧
    ((admin_verify_payment pid true db).2 =
      .ok (.approved, (db.links.filter fun l => l.paymentId == pid).map (·.ticketId))) ∧
    (∀ (email : Nat) (ticketIds : List Nat) (reference : Nat) (raffle : Raffle)
      (now payId : Nat) (hold : Nat) (rate : Rat) (db₂ : DB) (pay : Payment),
      (create_payment_for_reserved email ticketIds reference (some raffle) now payId
        (some hold) rate db₂).2 = .ok pay →
      pay.amountVes = round2 (round2 (cents_to_usd raffle.ticketPriceCents *
        ticketIds.length) * rate) ∧ pay.rateUsed = rate) := by
  have hmark : ∀ (tids : List Nat) (ref : Nat), tids ≠ [] → ∀ (ts : List Ticket),
      ∀ t ∈ mark_paid tids ref ts, tids.contains t.id = true → t.verified = true := by
    intro tids ref hne ts
    unfold mark_paid
    rw [if_neg hne]
    induction ts with
    | nil => intro t ht; exact absurd ht (List.not_mem_nil t)
    | cons u ts ih =>
      intro t ht hc
      rw [List.map_cons, List.mem_cons] at ht
      rcases ht with rfl | ht
      · by_cases hcu : tids.contains u.id = true
        · rw [if_pos hcu]
        · rw [if_neg hcu] at hc ⊢
          exact absurd hc hcu
      · exact ih t ht hc
  refine ⟨?_, ?_, ?_, ?_⟩
  · intro t ht hlink
    unfold admin_verify_payment at ht
    rw [if_neg h] at ht
    exact hmark _ _ h db.tickets t ht hlink
  · unfold admin_verify_payment
    rw [if_neg h]
    simp only []
    rw [List.map_map]
    apply List.map_congr_left
    intro p _
    simp only [Function.comp_apply]
    split <;> rfl
  · unfold admin_verify_payment
    rw [if_neg h]
    rfl
  · intro email ticketIds reference raffle now payId hold rate db₂ pay hok
    unfold create_payment_for_reserved at hok
    by_cases he : ticketIds = []
    · rw [if_pos he] at hok
      exact Except.noConfusion hok
    rw [if_neg he] at hok
    simp only [] at hok
    by_cases hlen : (db₂.tickets.filter fun t => ticketIds.contains t.id).length ≠
        ticketIds.length
    · rw [if_pos hlen] at hok
      exact Except.noConfusion hok
    rw [if_neg hlen] at hok
    rcases hval : validateRows raffle.id now hold email
        (db₂.tickets.filter fun t => ticketIds.contains t.id) with _ | e
    · rw [hval] at hok
      simp only [Except.ok.injEq] at hok
      rw [← hok]
      exact ⟨rfl, rfl⟩
    · rw [hval] at hok
      exact Except.noConfusion hok

def c3DB : DB :=
  ⟨[⟨7, 1, 3, false, some 100, some 5, none, none⟩],
   [⟨1, 1, 9, 1, 8, .pending, 40, 40⟩],
   [⟨1, 7⟩]⟩

/-- Witness for C3 on a concrete database. -/
theorem admin_approve_spec_witness :
    (∀ t ∈ (admin_verify_payment 1 true c3DB).1.tickets,
      ((c3DB.links.filter fun l => l.paymentId == 1).map (·.ticketId)).contains t.id →
        t.verified = true) ∧
    ((admin_verify_payment 1 true c3DB).1.payments.map
        (fun p => (p.id, p.amountVes, p.rateUsed)) =
      c3DB.payments.map (fun p => (p.id, p.amountVes, p.rateUsed))) :=
  ⟨(admin_approve_spec c3DB 1 (by decide)).1,
   (admin_approve_spec c3DB 1 (by decide)).2.1⟩

/-- C4 counterexample: rejecting a payment sets its status to
`rejected` but does NOT release the linked ticket — its reservation
fields survive the rejection, contradicting the claim that rejection
clears them. -/
theorem admin_reject_counterexample :
    (admin_verify_payment 1 false c3DB).1.payments =
      [⟨1, 1, 9, 1, 8, .rejected, 40, 40⟩] ∧
    (admin_verify_payment 1 false c3DB).1.tickets =
      [⟨7, 1, 3, false, some 100, some 5, none, none⟩] ∧
    ¬((admin_verify_payment 1 false c3DB).1.tickets.all fun t =>
      t.reservedUntil == none && t.reservedBy == none) := by
  refine ⟨by rfl, by rfl, by decide⟩

/-- C4 (amended).  Rejecting a payment with linked tickets sets the
payment status terminally to `rejected` and leaves the `tickets` table
entirely unchanged: the linked tickets keep `verified = false` and their
reservation fields are not cleared by the rejection itself — they only
lapse when the lease expires. -/
theorem admin_reject_spec (db : DB) (pid : Nat)
    (h : ((db.links.filter fun l => l.paymentId == pid).map (·.ticketId)) ≠ []) :
    (admin_verify_payment pid false db).1.tickets = db.tickets ∧
    ((admin_verify_payment pid false db).1.payments =
      db.payments.map fun p =>
        if p.id == pid then { p with status := .rejected } else p) ∧
    (admin_verify_payment pid false db).2 =
      .ok (.rejected, (db.links.filter fun l => l.paymentId == pid).map (·.ticketId)) := by
  unfold admin_verify_payment
  rw [if_neg h]
  exact ⟨rfl, rfl, rfl⟩

/-- Witness for C4 (amended) on a concrete database. -/
theorem admin_reject_spec_witness :
    (admin_verify_payment 1 false c3DB).1.tickets = c3DB.tickets ∧
    ((admin_verify_payment 1 false c3DB).1.payments =
      c3DB.payments.map fun p =>
        if p.id == 1 then { p with status := .rejected } else p) ∧
    (admin_verify_payment 1 false c3DB).2 =
      .ok (.rejected, (c3DB.links.filter fun l => l.paymentId == 1).map (·.ticketId)) :=
  admin_reject_spec c3DB 1 (by decide)

/-! ## Claim C5: submission validation is atomic -/

theorem validateRow_ne_none {rid now hold email : Nat} {t : Ticket}
    (hbad : t.raffleId ≠ rid ∨ t.verified = true ∨ untilAfter now t = false ∨
      t.reservedBy ≠ some hold) :
    validateRow rid now hold email t ≠ none := by
  unfold validateRow
  by_cases c1 : t.raffleId ≠ rid
  · rw [if_pos c1]; simp
  rw [if_neg c1]
  by_cases c2 : t.verified = true
  · rw [if_pos c2]; simp
  rw [if_neg c2]
  by_cases c3 : untilAfter now t = false
  · have hc : (!untilAfter now t) = true := by rw [c3]; rfl
    rw [if_pos hc]; simp
  have hc3' : untilAfter now t = true := by
    cases h : untilAfter now t
    · exact absurd h c3
    · rfl
  rw [if_neg (show ¬((!untilAfter now t) = true) by rw [hc3']; simp)]
  by_cases c4 : t.reservedBy ≠ some hold
  · rw [if_pos c4]; simp
  exfalso
  rcases hbad with h | h | h | h
  · exact c1 h
  · exact c2 h
  · exact c3 h
  · exact c4 h

theorem validateRows_error {rid now hold email : Nat} :
    ∀ {rows : List Ticket}, (∃ t ∈ rows, validateRow rid now hold email t ≠ none) →
    ∃ e, validateRows rid now hold email rows = some e := by
  intro rows
  induction rows with
  | nil => rintro ⟨t, ht, _⟩; exact absurd ht (List.not_mem_nil t)
  | cons u rest ih =>
    rintro ⟨t, ht, hbad⟩
    unfold validateRows
    cases hv : validateRow rid now hold email u with
    | some e => exact ⟨e, rfl⟩
    | none =>
      rcases List.mem_cons.mp ht with rfl | ht
      · exact absurd hv hbad
      · exact ih ⟨t, ht, hbad⟩

/-- C5.  If any referenced ticket is missing, belongs to another raffle,
is already verified, has an expired lease, or is stamped with a
different hold token, the whole payment submission fails with an error
and the store is completely unchanged: no payment row, no join-table
link, no ticket mutation. -/
theorem create_payment_validation (email : Nat) (ticketIds : List Nat)
    (reference : Nat) (raffle : Raffle) (now payId hold : Nat) (rate : Rat) (db : DB)
    (hids : IdsNodup db.tickets) (hnd : ticketIds.Nodup)
    (hviol :
      (∃ i ∈ ticketIds, ∀ t ∈ db.tickets, t.id ≠ i) ∨
      (∃ t ∈ db.tickets, t.id ∈ ticketIds ∧
        (t.raffleId ≠ raffle.id ∨ t.verified = true ∨ untilAfter now t = false ∨
          t.reservedBy ≠ some hold))) :
    (∃ e, (create_payment_for_reserved email ticketIds reference (some raffle) now
      payId (some hold) rate db).2 = .error e) ∧
    (create_payment_for_reserved email ticketIds reference (some raffle) now payId
      (some hold) rate db).1 = db := by
  unfold create_payment_for_reserved
  by_cases he : ticketIds = []
  · rw [if_pos he]
    exact ⟨⟨.noTickets, rfl⟩, rfl⟩
  rw [if_neg he]
  dsimp only []
  set rows := db.tickets.filter (fun t => ticketIds.contains t.id) with hrows
  by_cases hlen : rows.length ≠ ticketIds.length
  · rw [if_pos hlen]
    exact ⟨⟨.someMissing, rfl⟩, rfl⟩
  rw [if_neg hlen]
  push_neg at hlen
  -- with matching lengths every referenced id has a row, so the
  -- violation must be a per-row one
  have hrowsub : rows.Sublist db.tickets := by
    rw [hrows]; exact List.filter_sublist db.tickets
  have hrnd : (rows.map (·.id)).Nodup := hids.sublist (hrowsub.map (·.id))
  have hall : ∀ i ∈ ticketIds, ∃ t ∈ db.tickets, t.id = i := by
    intro i hi
    by_contra hno
    push_neg at hno
    have hnotin : i ∉ rows.map (·.id) := by
      intro hin
      obtain ⟨t, htr, hti⟩ := List.mem_map.mp hin
      exact hno t (List.mem_of_mem_filter htr) hti
    have hsub : (rows.map (·.id)).toFinset ⊆ ticketIds.toFinset.erase i := by
      intro a ha
      rw [List.mem_toFinset] at ha
      rw [Finset.mem_erase]
      refine ⟨?_, ?_⟩
      · rintro rfl
        exact hnotin ha
      · rw [List.mem_toFinset]
        obtain ⟨t, htr, hti⟩ := List.mem_map.mp ha
        have := List.of_mem_filter htr
        rw [hti] at this
        exact List.mem_of_elem_eq_true this
    have hc1 : (rows.map (·.id)).toFinset.card = ticketIds.length := by
      rw [List.toFinset_card_of_nodup hrnd, List.length_map]
      exact hlen
    have hc2 : (ticketIds.toFinset.erase i).card = ticketIds.length - 1 := by
      rw [Finset.card_erase_of_mem (List.mem_toFinset.mpr hi),
        List.toFinset_card_of_nodup hnd]
    have hc3 := Finset.card_le_card hsub
    rw [hc1, hc2] at hc3
    have hpos : 0 < ticketIds.length := List.length_pos.mpr he
    omega
  have hbadrow : ∃ t ∈ rows, validateRow raffle.id now hold email t ≠ none := by
    rcases hviol with ⟨i, hi, hno⟩ | ⟨t, htm, hin, hbad⟩
    · obtain ⟨t, htm, hti⟩ := hall i hi
      exact absurd hti (hno t htm)
    · refine ⟨t, ?_, validateRow_ne_none hbad⟩
      rw [hrows, List.mem_filter]
      exact ⟨htm, List.elem_eq_true_of_mem hin⟩
  obtain ⟨e, hve⟩ := validateRows_error hbadrow
  rw [hve]
  exact ⟨⟨e, rfl⟩, rfl⟩

def c5DB : DB := ⟨[⟨7, 1, 3, false, some 100, some 5, none, none⟩], [], []⟩

/-- Witness for C5: a ticket held under hold token 5 is submitted with
hold token 6; the submission fails and the store is untouched. -/
theorem create_payment_validation_witness :
    (∃ e, (create_payment_for_reserved 21 [7] 30 (some ⟨1, true, 1000, some 4, none,
      none⟩) 50 1 (some 6) 40 c5DB).2 = .error e) ∧
    (create_payment_for_reserved 21 [7] 30 (some ⟨1, true, 1000, some 4, none, none⟩)
      50 1 (some 6) 40 c5DB).1 = c5DB :=
  create_payment_validation 21 [7] 30 ⟨1, true, 1000, some 4, none, none⟩ 50 1 6 40
    c5DB (by simp [IdsNodup, c5DB]) (by simp)
    (Or.inr ⟨⟨7, 1, 3, false, some 100, some 5, none, none⟩, by simp [c5DB],
      by simp, Or.inr (Or.inr (Or.inr (by simp)))⟩)

/-! ## Claim C6: seed (non-)determinism of the draw -/

def c6Raffle : Raffle := ⟨1, true, 1000, some 100, none, none⟩

def c6Pool : List Ticket :=
  [⟨1, 1, 7, true, none, none, none, none⟩,
   ⟨2, 1, 9, true, none, none, none, none⟩]

/-- C6 counterexample: the service's `pick_winners` draws from a fresh
generator even though the draw row stores seed 42 — two runs over the
same verified pool with the same `n`, `unique` and stored seed yield
different ticket-number sequences. -/
theorem service_pick_winners_seed_counterexample :
    (service_pick_winners ⟨5, some 42⟩ c6Raffle ⟨0⟩ c6Pool 1 true).map
      (·.ticketNumber) ≠
    (service_pick_winners ⟨5, some 42⟩ c6Raffle ⟨1⟩ c6Pool 1 true).map
      (·.ticketNumber) := by
  decide

/-- C6 (amended).  `start_draw` stores the caller's seed on the draw row
but the service's `pick_winners` never reads it: its output is entirely
independent of the stored seed (first conjunct).  Reproducibility from
an explicit seed exists only in the standalone `bombo.pick_winners`
utility: with `seed` supplied, the selected sequence of participants is
a function of the seed alone — independent of the environment's entropy
and, apart from the per-run `uuid4` draw tickets, of anything else
(second conjunct). -/
theorem pick_winners_seed_behaviour :
    (∀ (did : Nat) (s1 s2 : Option Nat) (raffle : Raffle) (g : PyRng)
      (ts : List Ticket) (n : Nat) (u : Bool),
      service_pick_winners ⟨did, s1⟩ raffle g ts n u =
        service_pick_winners ⟨did, s2⟩ raffle g ts n u) ∧
    (∀ (parts : List Participant) (n : Nat) (u : Bool) (s : Nat) (e1 e2 : PyRng)
      (u1 u2 : Nat → String),
      (bombo_pick_winners parts n u (some s) e1 u1).map
        (fun w => (w.position, w.nombre, w.email, w.emailMasked)) =
      (bombo_pick_winners parts n u (some s) e2 u2).map
        (fun w => (w.position, w.nombre, w.email, w.emailMasked))) := by
  constructor
  · intro did s1 s2 raffle g ts n u
    rfl
  · intro parts n u s e1 e2 u1 u2
    unfold bombo_pick_winners
    by_cases hp : parts = []
    · rw [if_pos hp, if_pos hp]
    rw [if_neg hp, if_neg hp]
    by_cases hn : n < 1
    · rw [if_pos hn, if_pos hn]
    rw [if_neg hn, if_neg hn]
    dsimp only []
    rw [List.map_map, List.map_map]
    congr 1

/-! ## Claim C7: totality of the rate refresh -/

theorem num_or_none_pos {pf : String → Option Rat} {j : Json} {r : Rat}
    (h : num_or_none pf j = some r) : 0 < r := by
  cases j with
  | num q =>
    simp only [num_or_none] at h
    by_cases hq : 0 < q
    · rw [if_pos hq] at h
      cases h
      exact hq
    · rw [if_neg hq] at h
      exact Option.noConfusion h
  | str s =>
    simp only [num_or_none] at h
    cases hp : pf (s.replace "," ".") with
    | none => rw [hp] at h; exact Option.noConfusion h
    | some n =>
      rw [hp] at h
      dsimp only [] at h
      by_cases hn : 0 < n
      · rw [if_pos hn] at h
        cases h
        exact hn
      · rw [if_neg hn] at h
        exact Option.noConfusion h
  | bool b =>
    simp only [num_or_none] at h
    exact Option.noConfusion h
  | null =>
    simp only [num_or_none] at h
    exact Option.noConfusion h
  | arr xs =>
    simp only [num_or_none] at h
    exact Option.noConfusion h
  | obj fs =>
    simp only [num_or_none] at h
    exact Option.noConfusion h

theorem extract_rate_pos {pf : String → Option Rat} {j : Json} {r : Rat}
    (h : extract_rate_from_payload pf j = some r) : 0 < r := by
  unfold extract_rate_from_payload at h
  cases j with
  | obj fs =>
    have main : ∀ (paths : List (List String)) (acc : Option Rat),
        (∀ x, acc = some x → 0 < x) →
        ∀ x, (paths.foldl
          (fun acc path =>
            match acc with
            | some r => some r
            | none =>
              match (Json.obj fs).getPath path with
              | some node => num_or_none pf node
              | none => none) acc) = some x → 0 < x := by
      intro paths
      induction paths with
      | nil => intro acc hacc x hx; exact hacc x hx
      | cons p rest ih =>
        intro acc hacc x hx
        rw [List.foldl_cons] at hx
        apply ih _ ?_ x hx
        intro y hy
        cases acc with
        | some z => cases hy; exact hacc y rfl
        | none =>
          cases hgp : (Json.obj fs).getPath p with
          | none => rw [hgp] at hy; exact Option.noConfusion hy
          | some node =>
            rw [hgp] at hy
            exact num_or_none_pos hy
    exact main tryKeys none (fun x hx => Option.noConfusion hx) r h
  | num q => exact Option.noConfusion h
  | str s => exact Option.noConfusion h
  | bool b => exact Option.noConfusion h
  | null => exact Option.noConfusion h
  | arr xs => exact Option.noConfusion h

theorem tryPrimaries_pos {world : String → FetchOutcome} {pf : String → Option Rat} :
    ∀ {srcs : List (String × String)} {e : RateEntry},
    tryPrimaries world pf srcs = some e → 0 < e.rate := by
  intro srcs
  induction srcs with
  | nil => intro e h; exact Option.noConfusion h
  | cons s rest ih =>
    intro e h
    unfold tryPrimaries at h
    rcases s with ⟨url, label⟩
    cases hw : world url with
    | fail =>
      rw [hw] at h
      dsimp only [] at h
      exact ih h
    | ok j =>
      rw [hw] at h
      dsimp only [] at h
      cases hx : extract_rate_from_payload pf j with
      | none =>
        rw [hx] at h
        dsimp only [] at h
        exact ih h
      | some r =>
        rw [hx] at h
        dsimp only [] at h
        cases h
        exact extract_rate_pos hx

theorem tryPrimaries_all_fail {world : String → FetchOutcome}
    {pf : String → Option Rat} (hw : ∀ u, world u = .fail) :
    ∀ srcs : List (String × String), tryPrimaries world pf srcs = none := by
  intro srcs
  induction srcs with
  | nil => rfl
  | cons s rest ih =>
    unfold tryPrimaries
    rcases s with ⟨url, label⟩
    rw [hw url]
    exact ih

/-- C7 counterexample: `fetch_external_rate` — one of the two cited
rate-refresh functions — probes only the custom endpoint and returns no
rate at all, rather than a positive one, whenever that endpoint is
unconfigured or unreachable. -/
theorem fetch_external_rate_counterexample :
    fetch_external_rate ⟨none, 40⟩ (fun _ => .fail) (fun _ => none) = none ∧
    fetch_external_rate ⟨some "https://rates.example/bcv", 40⟩ (fun _ => .fail)
      (fun _ => none) = none :=
  ⟨rfl, rfl⟩

theorem customEntry_pos {cfg : RateCfg} {world : String → FetchOutcome}
    {pf : String → Option Rat} {e : RateEntry}
    (h : customEntry cfg world pf = some e) : 0 < e.rate := by
  unfold customEntry at h
  cases hc : cfg.bcvApiUrl with
  | none => rw [hc] at h; exact Option.noConfusion h
  | some url =>
    rw [hc] at h
    dsimp only [] at h
    cases hw : world url with
    | fail => rw [hw] at h; exact Option.noConfusion h
    | ok j =>
      rw [hw] at h
      dsimp only [] at h
      cases hx : extract_rate_from_payload pf j with
      | none => rw [hx] at h; exact Option.noConfusion h
      | some r =>
        rw [hx] at h
        cases h
        exact extract_rate_pos hx

theorem erApiEntry_pos {world : String → FetchOutcome} {pf : String → Option Rat}
    {e : RateEntry} (h : erApiEntry world pf = some e) : 0 < e.rate := by
  unfold erApiEntry at h
  cases hw : world "https://open.er-api.com/v6/latest/USD" with
  | fail => rw [hw] at h; exact Option.noConfusion h
  | ok j =>
    rw [hw] at h
    dsimp only [] at h
    cases hx : extract_rate_from_payload pf j with
    | none => rw [hx] at h; exact Option.noConfusion h
    | some r =>
      rw [hx] at h
      cases h
      exact extract_rate_pos hx

theorem dolarTodayEntry_pos {world : String → FetchOutcome} {pf : String → Option Rat}
    {e : RateEntry} (h : dolarTodayEntry world pf = some e) : 0 < e.rate := by
  unfold dolarTodayEntry at h
  cases hw : world "https://s3.amazonaws.com/dolartoday/data.json" with
  | fail => rw [hw] at h; exact Option.noConfusion h
  | ok j =>
    rw [hw] at h
    dsimp only [] at h
    cases hx : extract_rate_from_payload pf j with
    | some r =>
      rw [hx] at h
      cases h
      exact extract_rate_pos hx
    | none =>
      rw [hx] at h
      dsimp only [] at h
      cases hu : j.get? "USD" with
      | none => rw [hu] at h; exact Option.noConfusion h
      | some jn =>
        rw [hu] at h
        cases jn with
        | obj fs =>
          dsimp only [] at h
          cases hpv : (Json.obj fs).get? "promedio" with
          | none => rw [hpv] at h; exact Option.noConfusion h
          | some v =>
            rw [hpv] at h
            dsimp only [] at h
            cases hnn : num_or_none pf v with
            | none => rw [hnn] at h; exact Option.noConfusion h
            | some rv =>
              rw [hnn] at h
              cases h
              exact num_or_none_pos hnn
        | num q => exact Option.noConfusion h
        | str s => exact Option.noConfusion h
        | bool b => exact Option.noConfusion h
        | null => exact Option.noConfusion h
        | arr xs => exact Option.noConfusion h

theorem customEntry_all_fail {cfg : RateCfg} {world : String → FetchOutcome}
    {pf : String → Option Rat} (hw : ∀ u, world u = .fail) :
    customEntry cfg world pf = none := by
  unfold customEntry
  cases hc : cfg.bcvApiUrl with
  | none => rfl
  | some url =>
    dsimp only []
    rw [hw url]

theorem erApiEntry_all_fail {world : String → FetchOutcome}
    {pf : String → Option Rat} (hw : ∀ u, world u = .fail) :
    erApiEntry world pf = none := by
  unfold erApiEntry
  rw [hw "https://open.er-api.com/v6/latest/USD"]

theorem dolarTodayEntry_all_fail {world : String → FetchOutcome}
    {pf : String → Option Rat} (hw : ∀ u, world u = .fail) :
    dolarTodayEntry world pf = none := by
  unfold dolarTodayEntry
  rw [hw "https://s3.amazonaws.com/dolartoday/data.json"]

/-- C7 (amended).  `updateBCVRate` is total over every combination of
provider outcomes and, whenever the statically configured default rate
is positive, always returns a positive rate; when every external source
fails it degrades to exactly the configured default.  The helper
`fetch_external_rate`, by contrast, yields no rate whenever the custom
endpoint is absent or unusable (see the counterexample). -/
theorem updateBCVRate_total (cfg : RateCfg) (world : String → FetchOutcome)
    (pf : String → Option Rat) (hd : 0 < cfg.defaultUsdvesRate) :
    0 < (updateBCVRate cfg world pf).1 ∧
    ((∀ u, world u = .fail) →
      (updateBCVRate cfg world pf).1 = cfg.defaultUsdvesRate) := by
  constructor
  · unfold updateBCVRate
    cases h1 : customEntry cfg world pf with
    | some e => exact customEntry_pos h1
    | none =>
      dsimp only []
      cases h2 : tryPrimaries world pf primarySources with
      | some e => exact tryPrimaries_pos h2
      | none =>
        dsimp only []
        cases h3 : erApiEntry world pf with
        | some e => exact erApiEntry_pos h3
        | none =>
          dsimp only []
          cases h4 : dolarTodayEntry world pf with
          | some e => exact dolarTodayEntry_pos h4
          | none => exact hd
  · intro hw
    unfold updateBCVRate
    rw [customEntry_all_fail hw, tryPrimaries_all_fail hw, erApiEntry_all_fail hw,
      dolarTodayEntry_all_fail hw]

/-- Banker's rounding of an exact integer is the identity. -/
theorem roundHalfEvenZ_intCast (k : Int) : roundHalfEvenZ (k : Rat) = k := by
  unfold roundHalfEvenZ
  rw [Int.floor_intCast]
  have hne : ¬ ((k : Rat) - k = 1/2) := by
    rw [sub_self]; norm_num
  rw [if_neg hne, Int.floor_int_add]
  norm_num

/-- On whole cents, `cents_to_usd` is exact division by 100. -/
theorem cents_to_usd_eq (c : Nat) : cents_to_usd c = (c : Rat) / 100 := by
  unfold cents_to_usd
  rw [div_mul_cancel₀ _ (by norm_num : (100 : Rat) ≠ 0)]
  rw [show ((c : Nat) : Rat) = ((c : Int) : Rat) by push_cast; ring]
  rw [roundHalfEvenZ_intCast]

/-- Witness for C7 at a concrete all-fail world with default rate 40. -/
theorem updateBCVRate_total_witness :
    0 < (updateBCVRate ⟨none, 40⟩ (fun _ => .fail) (fun _ => none)).1 ∧
    (updateBCVRate ⟨none, 40⟩ (fun _ => .fail) (fun _ => none)).1 = 40 :=
  ⟨(updateBCVRate_total ⟨none, 40⟩ (fun _ => .fail) (fun _ => none) (by norm_num)).1,
   (updateBCVRate_total ⟨none, 40⟩ (fun _ => .fail) (fun _ => none)
     (by norm_num)).2 (fun _ => rfl)⟩

/-- C8.  For every raffle with unit price `P` cents and quantity
`q ≥ 1`, `quote_amount` succeeds with `total_usd` equal to the
half-up two-decimal rounding of `(P/100) * q` and `total_ves` equal to
the half-up two-decimal rounding of `total_usd * rate`; concretely,
quantity 3 at 1000 cents and rate 40 quotes `total_usd = 30.00` and
`total_ves = 1200.00`. -/
theorem quote_amount_spec (q : Nat) (raffle : Raffle) (rate : Rat)
    (hq : 1 ≤ q) :
    (∃ Q, quote_amount q (some raffle) rate = .ok Q ∧
      Q.totalUsd = round2 ((raffle.ticketPriceCents : Rat) / 100 * q) ∧
      Q.totalVes = round2 (Q.totalUsd * rate)) ∧
    quote_amount 3 (some ⟨7, true, 1000, none, none, none⟩) 40 =
      .ok ⟨7, 10, 30, 400, 1200⟩ := by
  constructor
  · have hlt : ¬ q < 1 := by omega
    have hqe : quote_amount q (some raffle) rate =
        .ok ⟨raffle.id, cents_to_usd raffle.ticketPriceCents,
             round2 (cents_to_usd raffle.ticketPriceCents * q),
             round2 (cents_to_usd raffle.ticketPriceCents * rate),
             round2 (round2 (cents_to_usd raffle.ticketPriceCents * q) * rate)⟩ := by
      unfold quote_amount
      rw [if_neg hlt]
    exact ⟨_, hqe, by rw [cents_to_usd_eq], rfl⟩
  · have hqe : quote_amount 3 (some ⟨7, true, 1000, none, none, none⟩) 40 =
        .ok ⟨7, cents_to_usd 1000, round2 (cents_to_usd 1000 * ((3 : Nat) : Rat)),
             round2 (cents_to_usd 1000 * 40),
             round2 (round2 (cents_to_usd 1000 * ((3 : Nat) : Rat)) * 40)⟩ := by
      unfold quote_amount
      rw [if_neg (by norm_num : ¬ (3 : Nat) < 1)]
    have h10 : cents_to_usd 1000 = 10 := by
      rw [cents_to_usd_eq]; norm_num
    rw [hqe, h10]
    have h30 : round2 ((10 : Rat) * ((3 : Nat) : Rat)) = 30 := by
      norm_num [round2]
    have h400 : round2 ((10 : Rat) * 40) = 400 := by
      norm_num [round2]
    rw [h30]
    have h1200 : round2 ((30 : Rat) * 40) = 1200 := by
      norm_num [round2]
    rw [h400, h1200]

/-- Witness for C8: the concrete round-trip quote at quantity 3,
unit price 1000 cents and rate 40. -/
theorem quote_amount_spec_witness :
    quote_amount 3 (some ⟨7, true, 1000, none, none, none⟩) 40 =
      .ok ⟨7, 10, 30, 400, 1200⟩ :=
  (quote_amount_spec 3 ⟨7, true, 1000, none, none, none⟩ 40 (by norm_num)).2

/-- C10 (implicit).  The `/tickets/reserve` endpoint rejects every
request whose quantity lies outside `1..50` with HTTP 422 before the
service layer runs: the ticket table and the id counter are returned
unchanged and no reservation is attempted. -/
theorem reserve_endpoint_quantity_guard (quantity : Int) (raffle : Raffle)
    (now hold nextId : Nat) (shuffle : List Nat → List Nat)
    (ts : List Ticket) (h : quantity < 1 ∨ 50 < quantity) :
    reserve_endpoint quantity raffle now hold nextId shuffle ts =
      ((ts, nextId), .error ⟨422, "quantity debe estar entre 1 y 50"⟩) := by
  unfold reserve_endpoint
  have hb : (quantity < 1 || 50 < quantity) = true := by
    rcases h with h | h
    · simp [h]
    · simp [h]
  rw [if_pos hb]

/-- Witness for C10 at quantity 51 over a one-ticket table. -/
theorem reserve_endpoint_quantity_guard_witness :
    reserve_endpoint 51 ⟨1, true, 1000, none, some 100, none⟩ 5 9 2 id
        [⟨1, 1, 1, false, none, none, none, none⟩] =
      (([⟨1, 1, 1, false, none, none, none, none⟩], 2),
        .error ⟨422, "quantity debe estar entre 1 y 50"⟩) :=
  reserve_endpoint_quantity_guard 51 ⟨1, true, 1000, none, some 100, none⟩ 5 9 2 id
    [⟨1, 1, 1, false, none, none, none, none⟩] (Or.inr (by norm_num))

end Prizo
